import Mathlib

/-!
# Event video download manager

A shallow embedding of `src/event/EventDownloadManager.cpp`, and of the playback-rate
stepping of `src/ui/EventVideoPlayer.cpp`.

* `QString` values are lists of characters.
* An `EventVideoDownload *` is an address; the three containers of the manager hold
  addresses and compare them by identity, as the C++ containers do.
* The address returned by `new EventVideoDownload(...)` and the answers of the file
  dialogs are inputs of the operations that use them.
* Every operation returns the new manager together with the list of externally visible
  actions it performed, in program order (`Effect`).
* The Qt classes `QFileInfo` and the helper `withSuffix` of `utils/StringUtils.h` are
  not part of the translated file; they are the fields of `Env`.
-/

namespace Bluecherry

/-! ## Strings -/

abbrev QString := List Char

/-- Decimal value of an ASCII digit, the model of `QChar::digitValue`. -/
def digitValue (c : Char) : Option Nat :=
  if c.isDigit then some (c.toNat - 48) else none

/-- Pieces of a format string as `QString::arg` sees it: ordinary characters and
place markers `%N` / `%LN` with their number and their own text. -/
inductive ArgToken where
  | lit (c : Char)
  | escape (n : Nat) (text : List Char)
deriving DecidableEq, Repr

/-- Where the scanner of `QString::arg` stands inside a possible place marker. -/
inductive ScanState where
  | plain
  | percent (loc : Bool)
  | digit (loc : Bool) (c1 : Char) (d1 : Nat)
deriving DecidableEq, Repr

/-- Text consumed so far of a marker that did not complete. -/
def percentText (loc : Bool) : List Char :=
  if loc then ['%', 'L'] else ['%']

/-- Scanner of place markers (`findArgEscapes` of Qt): a marker is `%`, an optional `L`,
one digit and a second digit when one follows directly. A `%` that is not followed by a
digit is an ordinary character and the character after it is scanned again. -/
def scanArg : ScanState → List Char → List ArgToken
  | .plain, [] => []
  | .plain, c :: cs =>
      if c = '%' then scanArg (.percent false) cs else .lit c :: scanArg .plain cs
  | .percent loc, [] => (percentText loc).map .lit
  | .percent loc, c :: cs =>
      if loc = false ∧ c = 'L' then
        scanArg (.percent true) cs
      else
        match digitValue c with
        | some d => scanArg (.digit loc c d) cs
        | none =>
            (percentText loc).map .lit ++
              (if c = '%' then scanArg (.percent false) cs else .lit c :: scanArg .plain cs)
  | .digit loc c1 d1, [] => [.escape d1 (percentText loc ++ [c1])]
  | .digit loc c1 d1, c :: cs =>
      match digitValue c with
      | some d2 => .escape (10 * d1 + d2) (percentText loc ++ [c1, c]) :: scanArg .plain cs
      | none =>
          .escape d1 (percentText loc ++ [c1]) ::
            (if c = '%' then scanArg (.percent false) cs else .lit c :: scanArg .plain cs)

/-- Lowest place-marker number among the tokens, if there is a marker at all. -/
def minEscape : List ArgToken → Option Nat
  | [] => none
  | .lit _ :: ts => minEscape ts
  | .escape n _ :: ts =>
      match minEscape ts with
      | none => some n
      | some m => some (min n m)

/-- Text of a token once the markers numbered `m` are replaced by `a`. -/
def substToken (m : Nat) (a : QString) : ArgToken → List Char
  | .lit c => [c]
  | .escape n text => if n = m then a else text

/-- The single-argument `QString::arg(const QString &)`: every occurrence of the
lowest-numbered place marker is replaced by `a`; a string without marker is returned
as it is. -/
def QString.arg (s a : QString) : QString :=
  match minEscape (scanArg .plain s) with
  | none => s
  | some m => (scanArg .plain s).flatMap (substToken m a)

/-- The two-argument `QString::arg(a1, a2)` applied to the pattern `"%1/%2"`: both
markers are replaced in one pass, so the arguments themselves are not scanned. -/
def argPathPattern (a1 a2 : QString) : QString :=
  a1 ++ '/' :: a2

/-- The functions the manager takes from outside the translated file.
`isAbsolute p` is `QFileInfo(p).isAbsolute()`, `absoluteFilePath p` is
`QFileInfo(p).absoluteFilePath()`, `absoluteDirPath p` is
`QFileInfo(p).absoluteDir().absolutePath()` and `withSuffix` is the helper of
`utils/StringUtils.h`. -/
structure Env where
  isAbsolute : QString → Bool
  absoluteFilePath : QString → QString
  absoluteDirPath : QString → QString
  withSuffix : QString → QString → QString

/-- Documented behaviour of `QFileInfo::absoluteFilePath`: it returns the same as
`filePath()` unless the path is relative. -/
def Env.AbsoluteKept (env : Env) : Prop :=
  ∀ p, env.isAbsolute p = true → env.absoluteFilePath p = p

/-- Whether a path is absolute is decided by how it begins: a name put behind an
absolute directory is an absolute path. -/
def Env.AbsoluteBelow (env : Env) : Prop :=
  ∀ d name, env.isAbsolute d = true → env.isAbsolute (d ++ '/' :: name) = true

/-- Behaviour expected of `withSuffix`: a string that ends with a result of `withSuffix`
for a suffix already has that suffix and is returned as it is. -/
def Env.SuffixKept (env : Env) : Prop :=
  ∀ pre s suf, env.withSuffix (pre ++ env.withSuffix s suf) suf = pre ++ env.withSuffix s suf

/-! ## Data -/

/-- An `EventVideoDownload *`. -/
abbrev DownloadPtr := Nat

/-- The parts of `EventData` the manager reads: `event.server->api->serverUrl()`,
`event.mediaId` and `event.baseFileName()`. -/
structure EventData where
  serverUrl : QString
  mediaId : Int
  baseFileName : QString
deriving DecidableEq, Repr

/-- A `QUrl` as the manager builds it: a base resolved with a reference, and the query
items added afterwards. -/
structure QUrl where
  base : QString
  reference : QString
  queryItems : List (QString × QString)
deriving DecidableEq, Repr

/-- Externally visible actions of the manager. -/
inductive Effect where
  | settingsSetValue (key value : QString)
  | newEventVideoDownload (dl : DownloadPtr) (url : QUrl) (saveFileName : QString)
  | connectDestroyed (dl : DownloadPtr)
  | connectFinished (dl : DownloadPtr)
  | start (dl : DownloadPtr)
  | eventVideoDownloadAdded (dl : DownloadPtr)
  | eventVideoDownloadRemoved (dl : DownloadPtr)
deriving DecidableEq, Repr

/-- The member variables of `EventDownloadManager`. -/
structure EventDownloadManager where
  m_lastSaveDirectory : QString
  m_eventVideoDownloadQueue : List DownloadPtr
  m_activeEventVideoDownloadList : List DownloadPtr
  m_eventVideoDownloadList : List DownloadPtr
deriving DecidableEq, Repr

def MAX_CONCURRENT_DOWNLOADS : Nat := 30

/-- The settings key of the last save directory. -/
def lastSaveDirectoryKey : QString := "download/lastSaveDirectory".toList

/-- The suffix given to saved videos. -/
def mkvSuffix : QString := ".mkv".toList

/-- `QList::removeAll`: every occurrence of the value is taken out, the others keep
their order. -/
def removeAll (t : DownloadPtr) : List DownloadPtr → List DownloadPtr
  | [] => []
  | x :: xs => if x = t then removeAll t xs else x :: removeAll t xs

/-! ## Operations -/

/-- The constructor: the directory is read from the settings (`stored`), the three
containers start empty. The timer it starts calls `checkQueue` every second; in a run
that is a `checkQueue` step at any moment. -/
def EventDownloadManager.construct (stored : QString) : EventDownloadManager :=
  { m_lastSaveDirectory := stored
    m_eventVideoDownloadQueue := []
    m_activeEventVideoDownloadList := []
    m_eventVideoDownloadList := [] }

def defaultFileName (env : Env) (event : EventData) : QString :=
  env.withSuffix event.baseFileName mkvSuffix

def absoluteFileName (env : Env) (m : EventDownloadManager) (fileName : QString) : QString :=
  if env.isAbsolute fileName then
    env.absoluteFilePath fileName
  else
    env.absoluteFilePath
      (QString.arg (QString.arg "%1/%2".toList m.m_lastSaveDirectory) fileName)

def updateLastSaveDirectory (env : Env) (m : EventDownloadManager) (fileName : QString) :
    EventDownloadManager × List Effect :=
  let newSaveDirectory := env.absoluteDirPath fileName
  if m.m_lastSaveDirectory ≠ newSaveDirectory then
    ({ m with m_lastSaveDirectory := newSaveDirectory },
      [Effect.settingsSetValue lastSaveDirectoryKey newSaveDirectory])
  else
    (m, [])

/-- The request URL of an event: the server URL resolved with `/media/request.php`, with
the query item `id`. -/
def requestUrl (event : EventData) : QUrl :=
  { base := event.serverUrl
    reference := "/media/request.php".toList
    queryItems := [("id".toList, (toString event.mediaId).toList)] }

/-- The two-argument `startEventDownload(event, fileName)`; `dl` is the address that
`new EventVideoDownload` returns. -/
def startEventDownload (env : Env) (m : EventDownloadManager) (event : EventData)
    (fileName : QString) (dl : DownloadPtr) : EventDownloadManager × List Effect :=
  if fileName.isEmpty then
    (m, [])
  else
    let saveFileName := absoluteFileName env m (env.withSuffix fileName mkvSuffix)
    let r := updateLastSaveDirectory env m saveFileName
    ({ r.1 with
        m_eventVideoDownloadQueue := r.1.m_eventVideoDownloadQueue ++ [dl]
        m_eventVideoDownloadList := r.1.m_eventVideoDownloadList ++ [dl] },
      r.2 ++ [Effect.newEventVideoDownload dl (requestUrl event) saveFileName,
              Effect.connectDestroyed dl,
              Effect.eventVideoDownloadAdded dl])

/-- The one-argument `startEventDownload(event)`: `chosen` is what the save dialog
returns (the dialog is opened on `absoluteFileName (defaultFileName event)`). -/
def startEventDownloadDialog (env : Env) (m : EventDownloadManager) (event : EventData)
    (chosen : QString) (dl : DownloadPtr) : EventDownloadManager × List Effect :=
  startEventDownload env m event chosen dl

/-- The `foreach` of `startMultipleEventDownloads`: each event comes with the address
that `new` returns for it. -/
def startEach (env : Env) (dirName : QString) :
    EventDownloadManager → List (EventData × DownloadPtr) → EventDownloadManager × List Effect
  | m, [] => (m, [])
  | m, (event, dl) :: rest =>
      let r := startEventDownload env m event
        (argPathPattern dirName (defaultFileName env event)) dl
      let r2 := startEach env dirName r.1 rest
      (r2.1, r.2 ++ r2.2)

/-- `startMultipleEventDownloads(events)`; `dirName` is what the directory dialog
`QFileDialog::getExistingDirectory` returns: the absolute path of the chosen directory,
or an empty string when the dialog is cancelled. -/
def startMultipleEventDownloads (env : Env) (m : EventDownloadManager) (dirName : QString)
    (events : List (EventData × DownloadPtr)) : EventDownloadManager × List Effect :=
  if dirName.isEmpty then
    (m, [])
  else
    startEach env dirName m events

/-- The loop of `checkQueue` for a given cap. Every iteration dequeues one element, so
the loop is a recursion on the queue. The results are the queue, the active list and the
actions. -/
def checkQueueLoop (cap : Nat) :
    List DownloadPtr → List DownloadPtr → List DownloadPtr × List DownloadPtr × List Effect
  | [], active => ([], active, [])
  | dl :: queue, active =>
      if active.length < cap then
        let r := checkQueueLoop cap queue (active ++ [dl])
        (r.1, r.2.1, Effect.connectFinished dl :: Effect.start dl :: r.2.2)
      else
        (dl :: queue, active, [])

/-- The slot `checkQueue` with the cap as a parameter. -/
def checkQueueWith (cap : Nat) (m : EventDownloadManager) : EventDownloadManager × List Effect :=
  let r := checkQueueLoop cap m.m_eventVideoDownloadQueue m.m_activeEventVideoDownloadList
  ({ m with m_eventVideoDownloadQueue := r.1, m_activeEventVideoDownloadList := r.2.1 }, r.2.2)

def checkQueue (m : EventDownloadManager) : EventDownloadManager × List Effect :=
  checkQueueWith MAX_CONCURRENT_DOWNLOADS m

def eventVideoDownloadFinished (m : EventDownloadManager) (eventVideoDownload : DownloadPtr) :
    EventDownloadManager × List Effect :=
  ({ m with
      m_activeEventVideoDownloadList := removeAll eventVideoDownload m.m_activeEventVideoDownloadList },
    [])

def eventVideoDownloadDestroyed (m : EventDownloadManager) (destroyedObject : DownloadPtr) :
    EventDownloadManager × List Effect :=
  let dl := destroyedObject
  ({ m with
      m_eventVideoDownloadList := removeAll dl m.m_eventVideoDownloadList
      m_activeEventVideoDownloadList := removeAll dl m.m_activeEventVideoDownloadList
      m_eventVideoDownloadQueue := removeAll dl m.m_eventVideoDownloadQueue },
    [Effect.eventVideoDownloadRemoved dl])

/-! ## Runs -/

/-- The address is held by none of the three containers. -/
def Fresh (m : EventDownloadManager) (dl : DownloadPtr) : Prop :=
  dl ∉ m.m_eventVideoDownloadQueue ∧ dl ∉ m.m_activeEventVideoDownloadList ∧
    dl ∉ m.m_eventVideoDownloadList

/-- Every address of the batch is held by no container at the moment its task is
created. -/
def FreshEach (env : Env) (dirName : QString) :
    EventDownloadManager → List (EventData × DownloadPtr) → Prop
  | _, [] => True
  | m, (event, dl) :: rest =>
      Fresh m dl ∧
        FreshEach env dirName
          (startEventDownload env m event (argPathPattern dirName (defaultFileName env event)) dl).1
          rest

/-- States the manager reaches from construction by its public operations and slots,
with any arguments and any addresses. -/
inductive Reachable (env : Env) : EventDownloadManager → Prop where
  | construct (stored : QString) : Reachable env (EventDownloadManager.construct stored)
  | startEventDownload {m} (h : Reachable env m) (event : EventData) (fileName : QString)
      (dl : DownloadPtr) : Reachable env (startEventDownload env m event fileName dl).1
  | startEventDownloadDialog {m} (h : Reachable env m) (event : EventData) (chosen : QString)
      (dl : DownloadPtr) : Reachable env (startEventDownloadDialog env m event chosen dl).1
  | startMultipleEventDownloads {m} (h : Reachable env m) (dirName : QString)
      (events : List (EventData × DownloadPtr)) :
      Reachable env (startMultipleEventDownloads env m dirName events).1
  | checkQueue {m} (h : Reachable env m) : Reachable env (checkQueue m).1
  | eventVideoDownloadFinished {m} (h : Reachable env m) (dl : DownloadPtr) :
      Reachable env (eventVideoDownloadFinished m dl).1
  | eventVideoDownloadDestroyed {m} (h : Reachable env m) (dl : DownloadPtr) :
      Reachable env (eventVideoDownloadDestroyed m dl).1

/-- Reachable states when every created task gets an address that no container holds at
that moment. -/
inductive ReachableFresh (env : Env) : EventDownloadManager → Prop where
  | construct (stored : QString) : ReachableFresh env (EventDownloadManager.construct stored)
  | startEventDownload {m} (h : ReachableFresh env m) (event : EventData) (fileName : QString)
      (dl : DownloadPtr) (hdl : fileName.isEmpty = false → Fresh m dl) :
      ReachableFresh env (startEventDownload env m event fileName dl).1
  | startEventDownloadDialog {m} (h : ReachableFresh env m) (event : EventData)
      (chosen : QString) (dl : DownloadPtr) (hdl : chosen.isEmpty = false → Fresh m dl) :
      ReachableFresh env (startEventDownloadDialog env m event chosen dl).1
  | startMultipleEventDownloads {m} (h : ReachableFresh env m) (dirName : QString)
      (events : List (EventData × DownloadPtr)) (hdl : FreshEach env dirName m events) :
      ReachableFresh env (startMultipleEventDownloads env m dirName events).1
  | checkQueue {m} (h : ReachableFresh env m) : ReachableFresh env (checkQueue m).1
  | eventVideoDownloadFinished {m} (h : ReachableFresh env m) (dl : DownloadPtr) :
      ReachableFresh env (eventVideoDownloadFinished m dl).1
  | eventVideoDownloadDestroyed {m} (h : ReachableFresh env m) (dl : DownloadPtr) :
      ReachableFresh env (eventVideoDownloadDestroyed m dl).1

/-! ## A concrete collaborator -/

/-- Everything before the last `/` of a path; `/` itself for a file of the root. -/
def parentPath (p : QString) : QString :=
  let d := ((p.reverse.dropWhile (fun c => c ≠ '/')).drop 1).reverse
  if d.isEmpty then ['/'] else d

/-- Unix file names, for a process whose current directory is `cwd`, on names that
need no lexical clean-up (no `.` or `..` component, no doubled separator): a name is
absolute when it starts with `/`, and a relative name is put behind `cwd`. The suffix
helper appends the suffix unless the string ends with it. -/
def unixEnv (cwd : QString) : Env where
  isAbsolute p := p.head? == some '/'
  absoluteFilePath p := if p.head? == some '/' then p else cwd ++ '/' :: p
  absoluteDirPath p := parentPath (if p.head? == some '/' then p else cwd ++ '/' :: p)
  withSuffix s suf := if suf.isSuffixOf s then s else s ++ suf

/-- Number of tasks one run of the loop of `checkQueue` admits. -/
def admitted (cap : Nat) (queue active : List DownloadPtr) : Nat :=
  min (cap - active.length) queue.length

/-- The actions of admitting one task. -/
def admitEffects (dl : DownloadPtr) : List Effect :=
  [Effect.connectFinished dl, Effect.start dl]

/-- The containers agree with each other: none holds a task twice, no task is both
pending and active, and the registry holds every pending and every active task. -/
def Consistent (m : EventDownloadManager) : Prop :=
  m.m_eventVideoDownloadQueue.Nodup ∧ m.m_activeEventVideoDownloadList.Nodup ∧
    m.m_eventVideoDownloadList.Nodup ∧
    (∀ t ∈ m.m_eventVideoDownloadQueue, t ∉ m.m_activeEventVideoDownloadList) ∧
    (∀ t ∈ m.m_eventVideoDownloadQueue, t ∈ m.m_eventVideoDownloadList) ∧
    (∀ t ∈ m.m_activeEventVideoDownloadList, t ∈ m.m_eventVideoDownloadList)

/-! ## Playback rates (`src/ui/EventVideoPlayer.cpp`)

Speeds are exact rationals; `0.9f` and `1.1f` are `9/10` and `11/10`. The video backend
is present, so the early `return` of `faster` and `slower` is not taken. -/

def playbackRates : List ℚ :=
  [1 / 128, 1 / 64, 1 / 32, 1 / 16, 1 / 8, 1 / 4, 1 / 3, 1 / 2, 2 / 3,
    1 / 1,
    3 / 2, 2 / 1, 3 / 1, 4 / 1, 8 / 1, 16 / 1, 32 / 1, 64 / 1, 128 / 1]

def playbackRateCount : Nat := 19

/-- `qBound (min, value, max)` of Qt. -/
def qBound (lo v hi : ℚ) : ℚ :=
  max lo (min hi v)

/-- The loop of `faster` from index `i` on: the rate it picks, or the speed itself when
no rate is larger. The table is only read at the loop index. -/
def fasterScan (speed : ℚ) : List ℚ → ℚ
  | [] => speed
  | r :: rest => if speed < r then r else fasterScan speed rest

/-- The speed `faster` sets for a current playback speed. -/
def faster (current : ℚ) : ℚ :=
  qBound (playbackRates.headD 0) (fasterScan (current * (11 / 10)) playbackRates)
    (playbackRates.getLastD 0)

/-- The loop of `slower` over the rest of the table from index `i` on: at the first rate
that is not below the speed it stops, and the result is the index `i - 1` with which it
reads `playbackRates[i-1]`; `none` when the loop ends without reading. -/
def slowerScan (speed : ℚ) : List ℚ → Int → Option Int
  | [], _ => none
  | r :: rest, i => if speed ≤ r then some (i - 1) else slowerScan speed rest (i + 1)

/-- The index of the read `playbackRates[i-1]` in `slower` for a current playback speed,
if there is such a read. -/
def slowerReadIndex (current : ℚ) : Option Int :=
  slowerScan (current * (9 / 10)) playbackRates 0

/-- The speed `slower` sets for a current playback speed; `none` when the read
`playbackRates[i-1]` is outside the table, where the C++ program has no defined value. -/
def slower (current : ℚ) : Option ℚ :=
  match slowerReadIndex current with
  | none =>
      some (qBound (playbackRates.headD 0) (current * (9 / 10)) (playbackRates.getLastD 0))
  | some i =>
      if 0 ≤ i then
        (playbackRates[i.toNat]?).map
          (fun r => qBound (playbackRates.headD 0) r (playbackRates.getLastD 0))
      else
        none

/-! ## Reading the actions -/

/-- The signals `eventVideoDownloadAdded` and `eventVideoDownloadRemoved`. -/
def Effect.isNotification : Effect → Bool
  | .eventVideoDownloadAdded _ => true
  | .eventVideoDownloadRemoved _ => true
  | _ => false

/-- The task an action creates, if it creates one. -/
def Effect.created : Effect → Option (DownloadPtr × QUrl × QString)
  | .newEventVideoDownload dl url saveFileName => some (dl, url, saveFileName)
  | _ => none

/-- The task an action starts, if it starts one. -/
def Effect.started : Effect → Option DownloadPtr
  | .start dl => some dl
  | _ => none

/-- The value an action writes to the settings, if it writes one. -/
def Effect.written : Effect → Option (QString × QString)
  | .settingsSetValue key value => some (key, value)
  | _ => none

/-! ## Sequences of operations -/

/-- One call from outside: a public function or a slot of the manager, with its
arguments, the dialog answer and the addresses `new` returns in it. -/
inductive Op where
  | startEventDownload (event : EventData) (fileName : QString) (dl : DownloadPtr)
  | startEventDownloadDialog (event : EventData) (chosen : QString) (dl : DownloadPtr)
  | startMultipleEventDownloads (dirName : QString) (events : List (EventData × DownloadPtr))
  | updateLastSaveDirectory (fileName : QString)
  | checkQueue
  | eventVideoDownloadFinished (dl : DownloadPtr)
  | eventVideoDownloadDestroyed (dl : DownloadPtr)
deriving DecidableEq, Repr

/-- The effect of one call, for a given concurrency cap. -/
def stepWith (cap : Nat) (env : Env) (m : EventDownloadManager) :
    Op → EventDownloadManager × List Effect
  | .startEventDownload event fileName dl => startEventDownload env m event fileName dl
  | .startEventDownloadDialog event chosen dl => startEventDownloadDialog env m event chosen dl
  | .startMultipleEventDownloads dirName events =>
      startMultipleEventDownloads env m dirName events
  | .updateLastSaveDirectory fileName => updateLastSaveDirectory env m fileName
  | .checkQueue => checkQueueWith cap m
  | .eventVideoDownloadFinished dl => eventVideoDownloadFinished m dl
  | .eventVideoDownloadDestroyed dl => eventVideoDownloadDestroyed m dl

/-- The calls one after the other, for a given concurrency cap: the last manager and all
actions in order. -/
def runWith (cap : Nat) (env : Env) :
    EventDownloadManager → List Op → EventDownloadManager × List Effect
  | m, [] => (m, [])
  | m, op :: ops =>
      let r := stepWith cap env m op
      let r2 := runWith cap env r.1 ops
      (r2.1, r.2 ++ r2.2)

/-- The calls one after the other with the cap of the program. -/
def run (env : Env) (m : EventDownloadManager) (ops : List Op) :
    EventDownloadManager × List Effect :=
  runWith MAX_CONCURRENT_DOWNLOADS env m ops

/-- The addresses of the tasks a call creates. -/
def Op.creates : Op → List DownloadPtr
  | .startEventDownload _ fileName dl => if fileName.isEmpty then [] else [dl]
  | .startEventDownloadDialog _ chosen dl => if chosen.isEmpty then [] else [dl]
  | .startMultipleEventDownloads dirName events =>
      if dirName.isEmpty then [] else events.map Prod.snd
  | _ => []

/-- The addresses of the tasks a sequence of calls creates, in order. -/
def createdBy (ops : List Op) : List DownloadPtr :=
  ops.flatMap Op.creates

/-- The tasks started by a list of actions, in order. -/
def startedTasks (trace : List Effect) : List DownloadPtr :=
  trace.filterMap Effect.started

/-- The tasks created by a list of actions, in order. -/
def createdTasks (trace : List Effect) : List DownloadPtr :=
  (trace.filterMap Effect.created).map (fun c => c.1)

/-- The file name the latest task created at an address was given, if the actions
create a task there. -/
def destinationOf (trace : List Effect) (dl : DownloadPtr) : Option QString :=
  ((trace.filterMap Effect.created).reverse.find? (fun c => c.1 == dl)).map (fun c => c.2.2)

/-- What one call leaves of the pending queue, before the tasks it creates are
appended. -/
def queueKept (cap : Nat) (m : EventDownloadManager) : Op → List DownloadPtr
  | .checkQueue =>
      m.m_eventVideoDownloadQueue.drop
        (admitted cap m.m_eventVideoDownloadQueue m.m_activeEventVideoDownloadList)
  | .eventVideoDownloadDestroyed dl => removeAll dl m.m_eventVideoDownloadQueue
  | _ => m.m_eventVideoDownloadQueue

/-- No task is started twice, and the pending tasks are distinct, created and not yet
started: the state of a run in which every task is started at most once. -/
def StartedOnce (queue : List DownloadPtr) (trace : List Effect) : Prop :=
  (startedTasks trace).Nodup ∧ queue.Nodup ∧
    (∀ t ∈ queue, t ∉ startedTasks trace) ∧
    (∀ t ∈ queue, t ∈ createdTasks trace) ∧
    (∀ t ∈ startedTasks trace, t ∈ createdTasks trace)

/-! ## Sample data -/

def sampleEnv : Env := unixEnv "/home/user".toList

def sampleEvent (i : Nat) : EventData :=
  { serverUrl := "https://dvr.example".toList
    mediaId := i
    baseFileName := ['e', Char.ofNat (97 + i)] }

/-- A batch of `n` events with the addresses `100, 101, ...`. -/
def sampleBatch (n : Nat) : List (EventData × DownloadPtr) :=
  (List.range n).map (fun i => (sampleEvent i, 100 + i))

/-- A manager after a batch of 31 requests and one run of `checkQueue`. -/
def sampleBusy : EventDownloadManager :=
  (checkQueue
    (startMultipleEventDownloads sampleEnv (EventDownloadManager.construct [])
      "/videos".toList (sampleBatch 31)).1).1

/-- A manager after two requests, one run of `checkQueue`, a third request and the end
of the first transfer. -/
def sampleRun : EventDownloadManager :=
  (eventVideoDownloadFinished
    (startEventDownload sampleEnv
      (checkQueue
        (startEventDownload sampleEnv
          (startEventDownload sampleEnv (EventDownloadManager.construct [])
            (sampleEvent 0) "a".toList 1).1
          (sampleEvent 1) "/v/b".toList 2).1).1
      (sampleEvent 2) "c".toList 3).1
    1).1

/-- A manager with 29 active transfers and three pending tasks. -/
def sampleNearlyFull : EventDownloadManager :=
  { m_lastSaveDirectory := "/videos".toList
    m_eventVideoDownloadQueue := [40, 41, 42]
    m_activeEventVideoDownloadList := List.range 29
    m_eventVideoDownloadList := List.range 29 ++ [40, 41, 42] }

/-- Calls that follow a first request in the sample: another request, a change of the
tracked directory, a run of `checkQueue`, and the end and destruction of task 2. -/
def sampleLater : List Op :=
  [Op.startEventDownload (sampleEvent 1) "/data/b".toList 2,
    Op.updateLastSaveDirectory "/else/x.mkv".toList,
    Op.checkQueue,
    Op.eventVideoDownloadFinished 2,
    Op.eventVideoDownloadDestroyed 2]

/-- Calls that follow the destruction of the pending task 3 in the sample: `checkQueue`
three times, with a new request and the end of a transfer in between. -/
def sampleAfter : List Op :=
  [Op.checkQueue,
    Op.startEventDownload (sampleEvent 4) "d".toList 4,
    Op.checkQueue,
    Op.eventVideoDownloadFinished 2,
    Op.checkQueue]

/-- A run of the sample manager: two requests, admission, end and destruction of the
first task, a third request and another admission. -/
def sampleOps : List Op :=
  [Op.startEventDownload (sampleEvent 0) "a".toList 1,
    Op.startEventDownload (sampleEvent 1) "b".toList 2,
    Op.checkQueue,
    Op.eventVideoDownloadFinished 1,
    Op.checkQueue,
    Op.eventVideoDownloadDestroyed 1,
    Op.startEventDownload (sampleEvent 2) "c".toList 3,
    Op.checkQueue]

/-! ## Basic facts -/

theorem removeAll_eq_filter (t : DownloadPtr) (l : List DownloadPtr) :
    removeAll t l = l.filter (fun x => decide (x ≠ t)) := by
  induction l with
  | nil => rfl
  | cons x xs ih =>
    by_cases h : x = t
    · simp [removeAll, h, ih]
    · simp [removeAll, h, ih]

theorem mem_removeAll {t x : DownloadPtr} {l : List DownloadPtr} :
    x ∈ removeAll t l ↔ x ∈ l ∧ x ≠ t := by
  simp [removeAll_eq_filter]

theorem removeAll_of_not_mem {t : DownloadPtr} {l : List DownloadPtr} (h : t ∉ l) :
    removeAll t l = l := by
  rw [removeAll_eq_filter, List.filter_eq_self]
  intro x hx
  have : x ≠ t := fun e => h (e ▸ hx)
  simpa using this

theorem not_mem_removeAll (t : DownloadPtr) (l : List DownloadPtr) : t ∉ removeAll t l := by
  simp [mem_removeAll]

theorem removeAll_idem (t : DownloadPtr) (l : List DownloadPtr) :
    removeAll t (removeAll t l) = removeAll t l :=
  removeAll_of_not_mem (not_mem_removeAll t l)

theorem removeAll_sublist (t : DownloadPtr) (l : List DownloadPtr) : (removeAll t l).Sublist l := by
  rw [removeAll_eq_filter]
  exact List.filter_sublist l

theorem count_removeAll_of_ne {t u : DownloadPtr} (h : u ≠ t) (l : List DownloadPtr) :
    (removeAll t l).count u = l.count u := by
  induction l with
  | nil => rfl
  | cons x xs ih =>
    by_cases hx : x = t
    · simp [removeAll, hx, ih, List.count_cons]
      intro e
      exact absurd e.symm h
    · simp [removeAll, hx, ih, List.count_cons]

theorem removeAll_nodup {t : DownloadPtr} {l : List DownloadPtr} (h : l.Nodup) :
    (removeAll t l).Nodup :=
  h.sublist (removeAll_sublist t l)

theorem checkQueueLoop_eq (cap : Nat) (queue active : List DownloadPtr) :
    checkQueueLoop cap queue active =
      (queue.drop (admitted cap queue active),
        active ++ queue.take (admitted cap queue active),
        (queue.take (admitted cap queue active)).flatMap admitEffects) := by
  induction queue generalizing active with
  | nil => simp [checkQueueLoop, admitted]
  | cons dl queue ih =>
    by_cases h : active.length < cap
    · have hk : admitted cap (dl :: queue) active = admitted cap queue (active ++ [dl]) + 1 := by
        simp only [admitted, List.length_append, List.length_cons, List.length_nil]
        omega
      simp only [checkQueueLoop, h, if_true, ih, hk]
      simp [admitEffects]
    · have hk : admitted cap (dl :: queue) active = 0 := by
        simp only [admitted]
        omega
      simp [checkQueueLoop, h, hk]

theorem checkQueueWith_queue (cap : Nat) (m : EventDownloadManager) :
    (checkQueueWith cap m).1.m_eventVideoDownloadQueue =
      m.m_eventVideoDownloadQueue.drop
        (admitted cap m.m_eventVideoDownloadQueue m.m_activeEventVideoDownloadList) := by
  simp [checkQueueWith, checkQueueLoop_eq]

theorem checkQueueWith_active (cap : Nat) (m : EventDownloadManager) :
    (checkQueueWith cap m).1.m_activeEventVideoDownloadList =
      m.m_activeEventVideoDownloadList ++ m.m_eventVideoDownloadQueue.take
        (admitted cap m.m_eventVideoDownloadQueue m.m_activeEventVideoDownloadList) := by
  simp [checkQueueWith, checkQueueLoop_eq]

theorem checkQueueWith_effects (cap : Nat) (m : EventDownloadManager) :
    (checkQueueWith cap m).2 =
      (m.m_eventVideoDownloadQueue.take
        (admitted cap m.m_eventVideoDownloadQueue m.m_activeEventVideoDownloadList)).flatMap
          admitEffects := by
  simp [checkQueueWith, checkQueueLoop_eq]

theorem checkQueueWith_list (cap : Nat) (m : EventDownloadManager) :
    (checkQueueWith cap m).1.m_eventVideoDownloadList = m.m_eventVideoDownloadList := rfl

theorem checkQueueWith_dir (cap : Nat) (m : EventDownloadManager) :
    (checkQueueWith cap m).1.m_lastSaveDirectory = m.m_lastSaveDirectory := rfl

theorem checkQueueWith_active_le (cap : Nat) (m : EventDownloadManager)
    (h : m.m_activeEventVideoDownloadList.length ≤ cap) :
    (checkQueueWith cap m).1.m_activeEventVideoDownloadList.length ≤ cap := by
  rw [checkQueueWith_active]
  simp only [List.length_append, List.length_take, admitted]
  omega

theorem updateLastSaveDirectory_lists (env : Env) (m : EventDownloadManager) (f : QString) :
    (updateLastSaveDirectory env m f).1.m_eventVideoDownloadQueue = m.m_eventVideoDownloadQueue ∧
    (updateLastSaveDirectory env m f).1.m_activeEventVideoDownloadList =
      m.m_activeEventVideoDownloadList ∧
    (updateLastSaveDirectory env m f).1.m_eventVideoDownloadList = m.m_eventVideoDownloadList := by
  by_cases h : m.m_lastSaveDirectory = env.absoluteDirPath f <;> simp [updateLastSaveDirectory, h]

theorem startEventDownload_of_empty (env : Env) (m : EventDownloadManager) (event : EventData)
    (dl : DownloadPtr) : startEventDownload env m event [] dl = (m, []) := by
  simp [startEventDownload]

theorem startEventDownload_queue (env : Env) (m : EventDownloadManager) (event : EventData)
    (fileName : QString) (dl : DownloadPtr) (h : fileName.isEmpty = false) :
    (startEventDownload env m event fileName dl).1.m_eventVideoDownloadQueue =
      m.m_eventVideoDownloadQueue ++ [dl] := by
  simp [startEventDownload, h, (updateLastSaveDirectory_lists env m _).1]

theorem startEventDownload_list (env : Env) (m : EventDownloadManager) (event : EventData)
    (fileName : QString) (dl : DownloadPtr) (h : fileName.isEmpty = false) :
    (startEventDownload env m event fileName dl).1.m_eventVideoDownloadList =
      m.m_eventVideoDownloadList ++ [dl] := by
  simp [startEventDownload, h, (updateLastSaveDirectory_lists env m _).2.2]

theorem startEventDownload_active (env : Env) (m : EventDownloadManager) (event : EventData)
    (fileName : QString) (dl : DownloadPtr) :
    (startEventDownload env m event fileName dl).1.m_activeEventVideoDownloadList =
      m.m_activeEventVideoDownloadList := by
  unfold startEventDownload
  split
  · rfl
  · simp [(updateLastSaveDirectory_lists env m _).2.1]

theorem argPathPattern_isEmpty (a1 a2 : QString) : (argPathPattern a1 a2).isEmpty = false := by
  cases a1 <;> simp [argPathPattern]

theorem startEach_queue (env : Env) (dirName : QString) (m : EventDownloadManager)
    (events : List (EventData × DownloadPtr)) :
    (startEach env dirName m events).1.m_eventVideoDownloadQueue =
      m.m_eventVideoDownloadQueue ++ events.map Prod.snd := by
  induction events generalizing m with
  | nil => simp [startEach]
  | cons e rest ih =>
    obtain ⟨event, dl⟩ := e
    simp [startEach, ih, startEventDownload_queue, argPathPattern_isEmpty]

theorem startEach_list (env : Env) (dirName : QString) (m : EventDownloadManager)
    (events : List (EventData × DownloadPtr)) :
    (startEach env dirName m events).1.m_eventVideoDownloadList =
      m.m_eventVideoDownloadList ++ events.map Prod.snd := by
  induction events generalizing m with
  | nil => simp [startEach]
  | cons e rest ih =>
    obtain ⟨event, dl⟩ := e
    simp [startEach, ih, startEventDownload_list, argPathPattern_isEmpty]

theorem startEach_active (env : Env) (dirName : QString) (m : EventDownloadManager)
    (events : List (EventData × DownloadPtr)) :
    (startEach env dirName m events).1.m_activeEventVideoDownloadList =
      m.m_activeEventVideoDownloadList := by
  induction events generalizing m with
  | nil => simp [startEach]
  | cons e rest ih =>
    obtain ⟨event, dl⟩ := e
    simp [startEach, ih, startEventDownload_active]

theorem startMultipleEventDownloads_active (env : Env) (m : EventDownloadManager)
    (dirName : QString) (events : List (EventData × DownloadPtr)) :
    (startMultipleEventDownloads env m dirName events).1.m_activeEventVideoDownloadList =
      m.m_activeEventVideoDownloadList := by
  unfold startMultipleEventDownloads
  split
  · rfl
  · exact startEach_active env dirName m events

theorem length_removeAll_le (t : DownloadPtr) (l : List DownloadPtr) :
    (removeAll t l).length ≤ l.length :=
  (removeAll_sublist t l).length_le

/-! ## The concurrency cap -/

/-- C1: in every state reachable from the freshly constructed manager by any sequence of
`startEventDownload`, `startMultipleEventDownloads`, `checkQueue`,
`eventVideoDownloadFinished` and `eventVideoDownloadDestroyed`, the active list holds at
most `MAX_CONCURRENT_DOWNLOADS` (30) tasks. -/
theorem active_length_le_max (env : Env) (m : EventDownloadManager) (h : Reachable env m) :
    m.m_activeEventVideoDownloadList.length ≤ MAX_CONCURRENT_DOWNLOADS := by
  induction h with
  | construct stored => simp [EventDownloadManager.construct]
  | startEventDownload _ event fileName dl ih => rwa [startEventDownload_active]
  | startEventDownloadDialog _ event chosen dl ih =>
    rwa [startEventDownloadDialog, startEventDownload_active]
  | startMultipleEventDownloads _ dirName events ih =>
    rwa [startMultipleEventDownloads_active]
  | checkQueue _ ih => exact checkQueueWith_active_le _ _ ih
  | eventVideoDownloadFinished _ dl ih =>
    exact le_trans (length_removeAll_le _ _) ih
  | eventVideoDownloadDestroyed _ dl ih =>
    exact le_trans (length_removeAll_le _ _) ih

theorem active_length_le_max_witness :
    Reachable sampleEnv sampleBusy ∧
      sampleBusy.m_activeEventVideoDownloadList.length ≤ MAX_CONCURRENT_DOWNLOADS :=
  ⟨Reachable.checkQueue (Reachable.startMultipleEventDownloads (Reachable.construct []) _ _),
    active_length_le_max sampleEnv sampleBusy
      (Reachable.checkQueue (Reachable.startMultipleEventDownloads (Reachable.construct []) _ _))⟩

/-! ## Consistency of the three containers -/

theorem consistent_construct (stored : QString) :
    Consistent (EventDownloadManager.construct stored) := by
  simp [Consistent, EventDownloadManager.construct]

theorem consistent_startEventDownload (env : Env) (m : EventDownloadManager) (event : EventData)
    (fileName : QString) (dl : DownloadPtr) (hm : Consistent m)
    (hdl : fileName.isEmpty = false → Fresh m dl) :
    Consistent (startEventDownload env m event fileName dl).1 := by
  cases hf : fileName.isEmpty with
  | true =>
    have : fileName = [] := by simpa using hf
    subst this
    rwa [startEventDownload_of_empty]
  | false =>
    obtain ⟨hq, ha, hl, hqa, hql, hal⟩ := hm
    obtain ⟨fq, fa, fl⟩ := hdl hf
    unfold Consistent
    rw [startEventDownload_queue _ _ _ _ _ hf, startEventDownload_list _ _ _ _ _ hf,
      startEventDownload_active]
    refine ⟨?_, ha, ?_, ?_, ?_, ?_⟩
    · exact List.Nodup.append hq (List.nodup_singleton dl) (by simpa using fq)
    · exact List.Nodup.append hl (List.nodup_singleton dl) (by simpa using fl)
    · intro t ht
      rcases List.mem_append.mp ht with h | h
      · exact hqa t h
      · have : t = dl := by simpa using h
        subst this
        exact fa
    · intro t ht
      rcases List.mem_append.mp ht with h | h
      · exact List.mem_append_left _ (hql t h)
      · exact List.mem_append_right _ h
    · intro t ht
      exact List.mem_append_left _ (hal t ht)

theorem consistent_startEach (env : Env) (dirName : QString) (m : EventDownloadManager)
    (events : List (EventData × DownloadPtr)) (hm : Consistent m)
    (hdl : FreshEach env dirName m events) :
    Consistent (startEach env dirName m events).1 := by
  induction events generalizing m with
  | nil => simpa [startEach] using hm
  | cons e rest ih =>
    obtain ⟨event, dl⟩ := e
    obtain ⟨h1, h2⟩ := hdl
    exact ih _ (consistent_startEventDownload env m event _ dl hm (fun _ => h1)) h2

theorem consistent_checkQueueWith (cap : Nat) (m : EventDownloadManager) (hm : Consistent m) :
    Consistent (checkQueueWith cap m).1 := by
  obtain ⟨hq, ha, hl, hqa, hql, hal⟩ := hm
  unfold Consistent
  rw [checkQueueWith_queue, checkQueueWith_active, checkQueueWith_list]
  generalize admitted cap m.m_eventVideoDownloadQueue m.m_activeEventVideoDownloadList = k
  have hsplit : (m.m_eventVideoDownloadQueue.take k ++ m.m_eventVideoDownloadQueue.drop k).Nodup := by
    rwa [List.take_append_drop]
  have hdisj := List.nodup_append.mp hsplit
  refine ⟨hdisj.2.1, ?_, hl, ?_, ?_, ?_⟩
  · refine List.Nodup.append ha hdisj.1 ?_
    intro t hta htq
    exact hqa t (List.mem_of_mem_take htq) hta
  · intro t ht hmem
    rcases List.mem_append.mp hmem with h | h
    · exact hqa t (List.mem_of_mem_drop ht) h
    · exact hdisj.2.2 h ht
  · intro t ht
    exact hql t (List.mem_of_mem_drop ht)
  · intro t ht
    rcases List.mem_append.mp ht with h | h
    · exact hal t h
    · exact hql t (List.mem_of_mem_take h)

theorem consistent_finished (m : EventDownloadManager) (dl : DownloadPtr) (hm : Consistent m) :
    Consistent (eventVideoDownloadFinished m dl).1 := by
  obtain ⟨hq, ha, hl, hqa, hql, hal⟩ := hm
  refine ⟨hq, removeAll_nodup ha, hl, ?_, hql, ?_⟩
  · intro t ht hmem
    exact hqa t ht (mem_removeAll.mp hmem).1
  · intro t ht
    exact hal t (mem_removeAll.mp ht).1

theorem consistent_destroyed (m : EventDownloadManager) (dl : DownloadPtr) (hm : Consistent m) :
    Consistent (eventVideoDownloadDestroyed m dl).1 := by
  obtain ⟨hq, ha, hl, hqa, hql, hal⟩ := hm
  refine ⟨removeAll_nodup hq, removeAll_nodup ha, removeAll_nodup hl, ?_, ?_, ?_⟩
  · intro t ht hmem
    exact hqa t (mem_removeAll.mp ht).1 (mem_removeAll.mp hmem).1
  · intro t ht
    have := mem_removeAll.mp ht
    exact mem_removeAll.mpr ⟨hql t this.1, this.2⟩
  · intro t ht
    have := mem_removeAll.mp ht
    exact mem_removeAll.mpr ⟨hal t this.1, this.2⟩

theorem consistent_of_reachableFresh (env : Env) (m : EventDownloadManager)
    (h : ReachableFresh env m) : Consistent m := by
  induction h with
  | construct stored => exact consistent_construct stored
  | startEventDownload _ event fileName dl hdl ih =>
    exact consistent_startEventDownload env _ event fileName dl ih hdl
  | startEventDownloadDialog _ event chosen dl hdl ih =>
    exact consistent_startEventDownload env _ event chosen dl ih hdl
  | @startMultipleEventDownloads m0 _ dirName events hdl ih =>
    cases hd : dirName.isEmpty with
    | true => simpa [startMultipleEventDownloads, hd] using ih
    | false =>
      have := consistent_startEach env dirName m0 events ih hdl
      simpa [startMultipleEventDownloads, hd] using this
  | checkQueue _ ih => exact consistent_checkQueueWith _ _ ih
  | eventVideoDownloadFinished _ dl ih => exact consistent_finished _ dl ih
  | eventVideoDownloadDestroyed _ dl ih => exact consistent_destroyed _ dl ih

/-- C2: in every state reachable from the empty manager, when each created task gets an
address that no container holds at that moment, no task is both in the pending queue and
in the active list, and every task of the pending queue or of the active list is in the
full registry `m_eventVideoDownloadList`. -/
theorem pending_active_disjoint_and_registered (env : Env) (m : EventDownloadManager)
    (h : ReachableFresh env m) :
    (∀ t, ¬ (t ∈ m.m_eventVideoDownloadQueue ∧ t ∈ m.m_activeEventVideoDownloadList)) ∧
    (∀ t, t ∈ m.m_eventVideoDownloadQueue ∨ t ∈ m.m_activeEventVideoDownloadList →
      t ∈ m.m_eventVideoDownloadList) := by
  obtain ⟨_, _, _, hqa, hql, hal⟩ := consistent_of_reachableFresh env m h
  refine ⟨fun t ht => hqa t ht.1 ht.2, fun t ht => ?_⟩
  rcases ht with ht | ht
  · exact hql t ht
  · exact hal t ht

theorem sampleRun_reachableFresh : ReachableFresh sampleEnv sampleRun :=
  ReachableFresh.eventVideoDownloadFinished
    (ReachableFresh.startEventDownload
      (ReachableFresh.checkQueue
        (ReachableFresh.startEventDownload
          (ReachableFresh.startEventDownload (ReachableFresh.construct []) _ _ 1
            (fun _ => by unfold Fresh; decide))
          _ _ 2 (fun _ => by unfold Fresh; decide)))
      _ _ 3 (fun _ => by unfold Fresh; decide))
    1

theorem pending_active_disjoint_and_registered_witness :
    ReachableFresh sampleEnv sampleRun ∧
    sampleRun.m_eventVideoDownloadQueue = [3] ∧
    sampleRun.m_activeEventVideoDownloadList = [2] ∧
    sampleRun.m_eventVideoDownloadList = [1, 2, 3] ∧
    (∀ t, ¬ (t ∈ sampleRun.m_eventVideoDownloadQueue ∧
      t ∈ sampleRun.m_activeEventVideoDownloadList)) ∧
    (∀ t, t ∈ sampleRun.m_eventVideoDownloadQueue ∨
      t ∈ sampleRun.m_activeEventVideoDownloadList → t ∈ sampleRun.m_eventVideoDownloadList) :=
  ⟨sampleRun_reachableFresh, by decide, by decide, by decide,
    pending_active_disjoint_and_registered sampleEnv sampleRun sampleRun_reachableFresh⟩

/-! ## Admission -/

/-- C3: for a manager with pending queue `p` and active list `a`, `|a| ≤ 30`, one run of
`checkQueue` admits `k = min (30 - |a|) |p|` tasks: it connects and starts exactly the
first `k` tasks of `p` in queue order, appends them to `a` in that order and leaves the
other tasks of `p` pending in their order (registry and directory are untouched). So a
task that stands before an admitted one in the queue is admitted too and stands before it
in the active list, and afterwards the queue is empty or the active list holds 30
tasks. -/
theorem checkQueue_admits_queue_head (m : EventDownloadManager)
    (h : m.m_activeEventVideoDownloadList.length ≤ MAX_CONCURRENT_DOWNLOADS) :
    admitted MAX_CONCURRENT_DOWNLOADS m.m_eventVideoDownloadQueue m.m_activeEventVideoDownloadList
        = min (30 - m.m_activeEventVideoDownloadList.length) m.m_eventVideoDownloadQueue.length ∧
    (checkQueue m).1.m_eventVideoDownloadQueue =
      m.m_eventVideoDownloadQueue.drop
        (min (30 - m.m_activeEventVideoDownloadList.length) m.m_eventVideoDownloadQueue.length) ∧
    (checkQueue m).1.m_activeEventVideoDownloadList =
      m.m_activeEventVideoDownloadList ++ m.m_eventVideoDownloadQueue.take
        (min (30 - m.m_activeEventVideoDownloadList.length) m.m_eventVideoDownloadQueue.length) ∧
    (checkQueue m).2 =
      (m.m_eventVideoDownloadQueue.take
        (min (30 - m.m_activeEventVideoDownloadList.length)
          m.m_eventVideoDownloadQueue.length)).flatMap
        (fun dl => [Effect.connectFinished dl, Effect.start dl]) ∧
    (checkQueue m).1.m_eventVideoDownloadList = m.m_eventVideoDownloadList ∧
    (checkQueue m).1.m_lastSaveDirectory = m.m_lastSaveDirectory ∧
    (∀ i j, i < j →
      j < min (30 - m.m_activeEventVideoDownloadList.length) m.m_eventVideoDownloadQueue.length →
      i < min (30 - m.m_activeEventVideoDownloadList.length) m.m_eventVideoDownloadQueue.length ∧
      (checkQueue m).1.m_activeEventVideoDownloadList[m.m_activeEventVideoDownloadList.length + i]? =
        m.m_eventVideoDownloadQueue[i]? ∧
      (checkQueue m).1.m_activeEventVideoDownloadList[m.m_activeEventVideoDownloadList.length + j]? =
        m.m_eventVideoDownloadQueue[j]?) ∧
    ((checkQueue m).1.m_eventVideoDownloadQueue = [] ∨
      (checkQueue m).1.m_activeEventVideoDownloadList.length = 30) := by
  have hk : admitted MAX_CONCURRENT_DOWNLOADS m.m_eventVideoDownloadQueue
      m.m_activeEventVideoDownloadList
        = min (30 - m.m_activeEventVideoDownloadList.length) m.m_eventVideoDownloadQueue.length :=
    rfl
  have hcap : MAX_CONCURRENT_DOWNLOADS = 30 := rfl
  rw [hcap] at h
  refine ⟨hk, ?_, ?_, ?_, rfl, rfl, ?_, ?_⟩
  · rw [checkQueue, checkQueueWith_queue, hk]
  · rw [checkQueue, checkQueueWith_active, hk]
  · rw [checkQueue, checkQueueWith_effects, hk]
    rfl
  · intro i j hij hj
    rw [checkQueue, checkQueueWith_active, hk]
    refine ⟨lt_trans hij hj, ?_, ?_⟩
    · rw [List.getElem?_append_right (Nat.le_add_right _ _), Nat.add_sub_cancel_left,
        List.getElem?_take_of_lt (lt_trans hij hj)]
    · rw [List.getElem?_append_right (Nat.le_add_right _ _), Nat.add_sub_cancel_left,
        List.getElem?_take_of_lt hj]
  · rw [checkQueue, checkQueueWith_queue, checkQueueWith_active, hk]
    by_cases hc : m.m_eventVideoDownloadQueue.length ≤ 30 - m.m_activeEventVideoDownloadList.length
    · left
      rw [Nat.min_eq_right hc]
      exact List.drop_length _
    · right
      simp only [List.length_append, List.length_take]
      omega

theorem checkQueue_admits_queue_head_witness :
    sampleNearlyFull.m_activeEventVideoDownloadList.length ≤ MAX_CONCURRENT_DOWNLOADS ∧
    (checkQueue sampleNearlyFull).1.m_eventVideoDownloadQueue = [41, 42] ∧
    (checkQueue sampleNearlyFull).1.m_activeEventVideoDownloadList = List.range 29 ++ [40] ∧
    (checkQueue sampleNearlyFull).2 = [Effect.connectFinished 40, Effect.start 40] :=
  have h := checkQueue_admits_queue_head sampleNearlyFull (by decide)
  ⟨by decide, h.2.1.trans (by decide), h.2.2.1.trans (by decide), h.2.2.2.1.trans (by decide)⟩

/-! ## Destruction and completion -/

/-- C4, as amended: calling `eventVideoDownloadDestroyed t` twice in a row leaves the
manager (the three lists and the directory) exactly as one call does; each call emits one
`eventVideoDownloadRemoved t`, so the two calls emit two; and for a task held by none of
the lists the call changes no list. -/
theorem destroyed_twice_same_lists (m : EventDownloadManager) (t : DownloadPtr) :
    (eventVideoDownloadDestroyed (eventVideoDownloadDestroyed m t).1 t).1 =
      (eventVideoDownloadDestroyed m t).1 ∧
    (eventVideoDownloadDestroyed m t).2 = [Effect.eventVideoDownloadRemoved t] ∧
    (eventVideoDownloadDestroyed (eventVideoDownloadDestroyed m t).1 t).2 =
      [Effect.eventVideoDownloadRemoved t] ∧
    (Fresh m t → (eventVideoDownloadDestroyed m t).1 = m) := by
  refine ⟨?_, rfl, rfl, ?_⟩
  · simp [eventVideoDownloadDestroyed, removeAll_idem]
  · rintro ⟨hq, ha, hl⟩
    simp [eventVideoDownloadDestroyed, removeAll_of_not_mem hq, removeAll_of_not_mem ha,
      removeAll_of_not_mem hl]

theorem destroyed_twice_same_lists_witness :
    Fresh sampleRun 9 ∧ (eventVideoDownloadDestroyed sampleRun 9).1 = sampleRun ∧
    (eventVideoDownloadDestroyed sampleRun 9).2 = [Effect.eventVideoDownloadRemoved 9] :=
  ⟨by unfold Fresh; decide,
    (destroyed_twice_same_lists sampleRun 9).2.2.2 (by unfold Fresh; decide),
    (destroyed_twice_same_lists sampleRun 9).2.1⟩

/-- C4 as stated fails: on the freshly constructed manager, which holds task 7 in none of
its lists, a destruction notification for 7 emits a removal notification, and two calls in
a row emit two removal notifications, not one. -/
theorem destroyed_twice_emits_twice :
    Fresh (EventDownloadManager.construct []) 7 ∧
    (eventVideoDownloadDestroyed (EventDownloadManager.construct []) 7).2 ≠ [] ∧
    ((eventVideoDownloadDestroyed (EventDownloadManager.construct []) 7).2 ++
      (eventVideoDownloadDestroyed
        (eventVideoDownloadDestroyed (EventDownloadManager.construct []) 7).1 7).2).count
        (Effect.eventVideoDownloadRemoved 7) ≠ 1 := by
  refine ⟨?_, ?_, ?_⟩
  · unfold Fresh
    decide
  · decide
  · decide

/-- C5: after `eventVideoDownloadDestroyed t` the task `t` occurs in none of the pending
queue, the active list and the full registry; each of the three lists is the old one
without the occurrences of `t`, so every other task keeps its membership and its place
relative to the others; the directory is unchanged and exactly one
`eventVideoDownloadRemoved t` is emitted. -/
theorem destroyed_removes_everywhere (m : EventDownloadManager) (t : DownloadPtr) :
    t ∉ (eventVideoDownloadDestroyed m t).1.m_eventVideoDownloadQueue ∧
    t ∉ (eventVideoDownloadDestroyed m t).1.m_activeEventVideoDownloadList ∧
    t ∉ (eventVideoDownloadDestroyed m t).1.m_eventVideoDownloadList ∧
    (eventVideoDownloadDestroyed m t).1.m_eventVideoDownloadQueue =
      m.m_eventVideoDownloadQueue.filter (fun u => decide (u ≠ t)) ∧
    (eventVideoDownloadDestroyed m t).1.m_activeEventVideoDownloadList =
      m.m_activeEventVideoDownloadList.filter (fun u => decide (u ≠ t)) ∧
    (eventVideoDownloadDestroyed m t).1.m_eventVideoDownloadList =
      m.m_eventVideoDownloadList.filter (fun u => decide (u ≠ t)) ∧
    (eventVideoDownloadDestroyed m t).1.m_lastSaveDirectory = m.m_lastSaveDirectory ∧
    (eventVideoDownloadDestroyed m t).2 = [Effect.eventVideoDownloadRemoved t] :=
  ⟨not_mem_removeAll t _, not_mem_removeAll t _, not_mem_removeAll t _,
    removeAll_eq_filter t _, removeAll_eq_filter t _, removeAll_eq_filter t _, rfl, rfl⟩

/-- C6: `eventVideoDownloadFinished t` takes `t` out of the active list only: the active
list becomes the old one without the occurrences of `t` (the other active tasks keep
their order), the pending queue, the full registry and the tracked directory are
unchanged, and nothing is emitted. -/
theorem finished_touches_active_only (m : EventDownloadManager) (t : DownloadPtr) :
    (eventVideoDownloadFinished m t).1.m_activeEventVideoDownloadList =
      m.m_activeEventVideoDownloadList.filter (fun u => decide (u ≠ t)) ∧
    t ∉ (eventVideoDownloadFinished m t).1.m_activeEventVideoDownloadList ∧
    (eventVideoDownloadFinished m t).1.m_eventVideoDownloadQueue = m.m_eventVideoDownloadQueue ∧
    (eventVideoDownloadFinished m t).1.m_eventVideoDownloadList = m.m_eventVideoDownloadList ∧
    (eventVideoDownloadFinished m t).1.m_lastSaveDirectory = m.m_lastSaveDirectory ∧
    (eventVideoDownloadFinished m t).2 = [] :=
  ⟨removeAll_eq_filter t _, not_mem_removeAll t _, rfl, rfl, rfl, rfl⟩

/-! ## Requests -/

theorem isEmpty_eq_false_of_ne {fileName : QString} (h : fileName ≠ []) :
    fileName.isEmpty = false := by
  cases fileName with
  | nil => exact absurd rfl h
  | cons c cs => rfl

theorem updateLastSaveDirectory_effects (env : Env) (m : EventDownloadManager) (f : QString) :
    (updateLastSaveDirectory env m f).2.filterMap Effect.created = [] ∧
    (updateLastSaveDirectory env m f).2.filter Effect.isNotification = [] ∧
    (updateLastSaveDirectory env m f).2.filterMap Effect.started = [] := by
  by_cases h : m.m_lastSaveDirectory = env.absoluteDirPath f <;>
    simp [updateLastSaveDirectory, h, Effect.created, Effect.isNotification, Effect.started]

theorem startEventDownload_effects (env : Env) (m : EventDownloadManager) (event : EventData)
    (fileName : QString) (dl : DownloadPtr) (h : fileName.isEmpty = false) :
    (startEventDownload env m event fileName dl).2 =
      (updateLastSaveDirectory env m
          (absoluteFileName env m (env.withSuffix fileName mkvSuffix))).2 ++
        [Effect.newEventVideoDownload dl (requestUrl event)
            (absoluteFileName env m (env.withSuffix fileName mkvSuffix)),
          Effect.connectDestroyed dl, Effect.eventVideoDownloadAdded dl] := by
  simp [startEventDownload, h]

theorem startEventDownload_created (env : Env) (m : EventDownloadManager) (event : EventData)
    (fileName : QString) (dl : DownloadPtr) (h : fileName.isEmpty = false) :
    (startEventDownload env m event fileName dl).2.filterMap Effect.created =
      [(dl, requestUrl event, absoluteFileName env m (env.withSuffix fileName mkvSuffix))] := by
  rw [startEventDownload_effects _ _ _ _ _ h, List.filterMap_append,
    (updateLastSaveDirectory_effects env m _).1]
  simp [Effect.created]

theorem startEventDownload_notifications (env : Env) (m : EventDownloadManager)
    (event : EventData) (fileName : QString) (dl : DownloadPtr) (h : fileName.isEmpty = false) :
    (startEventDownload env m event fileName dl).2.filter Effect.isNotification =
      [Effect.eventVideoDownloadAdded dl] := by
  rw [startEventDownload_effects _ _ _ _ _ h, List.filter_append,
    (updateLastSaveDirectory_effects env m _).2.1]
  simp [Effect.isNotification]

theorem startEventDownload_started (env : Env) (m : EventDownloadManager) (event : EventData)
    (fileName : QString) (dl : DownloadPtr) :
    (startEventDownload env m event fileName dl).2.filterMap Effect.started = [] := by
  cases h : fileName.isEmpty with
  | true => simp [startEventDownload, h]
  | false =>
    rw [startEventDownload_effects _ _ _ _ _ h, List.filterMap_append,
      (updateLastSaveDirectory_effects env m _).2.2]
    simp [Effect.started]

/-- C7: for a non-empty file name, `startEventDownload (event, fileName)` creates exactly
one task (for the request URL of the event), appends it at the tail of the pending queue
and at the tail of the full registry, emits exactly one `eventVideoDownloadAdded` for it
and no other notification, leaves the active list unchanged and starts nothing. -/
theorem startEventDownload_enqueues (env : Env) (m : EventDownloadManager) (event : EventData)
    (fileName : QString) (dl : DownloadPtr) (h : fileName ≠ []) :
    (startEventDownload env m event fileName dl).1.m_eventVideoDownloadQueue =
      m.m_eventVideoDownloadQueue ++ [dl] ∧
    (startEventDownload env m event fileName dl).1.m_eventVideoDownloadList =
      m.m_eventVideoDownloadList ++ [dl] ∧
    (startEventDownload env m event fileName dl).1.m_activeEventVideoDownloadList =
      m.m_activeEventVideoDownloadList ∧
    (startEventDownload env m event fileName dl).2.filterMap Effect.created =
      [(dl, requestUrl event, absoluteFileName env m (env.withSuffix fileName mkvSuffix))] ∧
    (startEventDownload env m event fileName dl).2.filter Effect.isNotification =
      [Effect.eventVideoDownloadAdded dl] ∧
    (startEventDownload env m event fileName dl).2.filterMap Effect.started = [] :=
  ⟨startEventDownload_queue env m event fileName dl (isEmpty_eq_false_of_ne h),
    startEventDownload_list env m event fileName dl (isEmpty_eq_false_of_ne h),
    startEventDownload_active env m event fileName dl,
    startEventDownload_created env m event fileName dl (isEmpty_eq_false_of_ne h),
    startEventDownload_notifications env m event fileName dl (isEmpty_eq_false_of_ne h),
    startEventDownload_started env m event fileName dl⟩

theorem startEventDownload_enqueues_witness :
    "c.mkv".toList ≠ [] ∧
    (startEventDownload sampleEnv sampleRun (sampleEvent 3) "c.mkv".toList 4).1.m_eventVideoDownloadQueue
      = [3, 4] ∧
    (startEventDownload sampleEnv sampleRun (sampleEvent 3) "c.mkv".toList 4).1.m_eventVideoDownloadList
      = [1, 2, 3, 4] ∧
    (startEventDownload sampleEnv sampleRun (sampleEvent 3) "c.mkv".toList 4).1.m_activeEventVideoDownloadList
      = [2] ∧
    (startEventDownload sampleEnv sampleRun (sampleEvent 3) "c.mkv".toList 4).2.filter
      Effect.isNotification = [Effect.eventVideoDownloadAdded 4] :=
  have h := startEventDownload_enqueues sampleEnv sampleRun (sampleEvent 3) "c.mkv".toList 4
    (by decide)
  ⟨by decide, h.1.trans (by decide), h.2.1.trans (by decide), h.2.2.1.trans (by decide),
    h.2.2.2.2.1⟩

/-- C8: an invalid request is dropped silently: `startEventDownload` with an empty file
name, and `startMultipleEventDownloads` when the chosen directory is empty (for any list
of events), return the manager as it was (pending queue, active list, full registry and
tracked directory) and perform no action at all: no task is created, nothing is written
to the settings and nothing is emitted. -/
theorem invalid_request_dropped (env : Env) (m : EventDownloadManager) (event : EventData)
    (dl : DownloadPtr) (events : List (EventData × DownloadPtr)) :
    startEventDownload env m event [] dl = (m, []) ∧
    startMultipleEventDownloads env m [] events = (m, []) := by
  constructor
  · exact startEventDownload_of_empty env m event dl
  · simp [startMultipleEventDownloads]

/-! ## File names -/

theorem absoluteFileName_of_isAbsolute (env : Env) (hfi : env.AbsoluteKept)
    (m : EventDownloadManager) (fileName : QString) (h : env.isAbsolute fileName = true) :
    absoluteFileName env m fileName = fileName := by
  simp [absoluteFileName, h, hfi fileName h]

theorem unixEnv_absoluteKept (cwd : QString) : (unixEnv cwd).AbsoluteKept := by
  intro p hp
  simp only [unixEnv] at hp ⊢
  simp [hp]

theorem startEach_notifications (env : Env) (dirName : QString) (m : EventDownloadManager)
    (events : List (EventData × DownloadPtr)) :
    (startEach env dirName m events).2.filter Effect.isNotification =
      events.map (fun e => Effect.eventVideoDownloadAdded e.2) := by
  induction events generalizing m with
  | nil => simp [startEach]
  | cons e rest ih =>
    obtain ⟨event, dl⟩ := e
    simp [startEach, ih, startEventDownload_notifications, argPathPattern_isEmpty]

theorem startEach_started (env : Env) (dirName : QString) (m : EventDownloadManager)
    (events : List (EventData × DownloadPtr)) :
    (startEach env dirName m events).2.filterMap Effect.started = [] := by
  induction events generalizing m with
  | nil => simp [startEach]
  | cons e rest ih =>
    obtain ⟨event, dl⟩ := e
    simp [startEach, ih, startEventDownload_started]

theorem startEach_created_tasks (env : Env) (dirName : QString) (m : EventDownloadManager)
    (events : List (EventData × DownloadPtr)) :
    ((startEach env dirName m events).2.filterMap Effect.created).map (fun c => (c.1, c.2.1)) =
      events.map (fun e => (e.2, requestUrl e.1)) := by
  induction events generalizing m with
  | nil => simp [startEach]
  | cons e rest ih =>
    obtain ⟨event, dl⟩ := e
    simp [startEach, ih, startEventDownload_created, argPathPattern_isEmpty]

theorem withSuffix_argPathPattern (env : Env) (hws : env.SuffixKept) (dirName : QString)
    (event : EventData) :
    env.withSuffix (argPathPattern dirName (defaultFileName env event)) mkvSuffix =
      argPathPattern dirName (defaultFileName env event) := by
  have h := hws (dirName ++ ['/']) event.baseFileName mkvSuffix
  simpa [argPathPattern, defaultFileName] using h

theorem startEach_created (env : Env) (hfi : env.AbsoluteKept) (hws : env.SuffixKept)
    (dirName : QString) (m : EventDownloadManager) (events : List (EventData × DownloadPtr))
    (habs : ∀ e ∈ events,
      env.isAbsolute (argPathPattern dirName (defaultFileName env e.1)) = true) :
    (startEach env dirName m events).2.filterMap Effect.created =
      events.map (fun e =>
        (e.2, requestUrl e.1, argPathPattern dirName (defaultFileName env e.1))) := by
  induction events generalizing m with
  | nil => simp [startEach]
  | cons e rest ih =>
    obtain ⟨event, dl⟩ := e
    have h1 := habs (event, dl) (List.mem_cons_self _ _)
    have h2 : ∀ e ∈ rest,
        env.isAbsolute (argPathPattern dirName (defaultFileName env e.1)) = true :=
      fun e he => habs e (List.mem_cons_of_mem _ he)
    simp [startEach, ih _ h2, startEventDownload_created, argPathPattern_isEmpty,
      withSuffix_argPathPattern env hws, absoluteFileName_of_isAbsolute env hfi _ _ h1]

theorem unixEnv_suffixKept (cwd : QString) : (unixEnv cwd).SuffixKept := by
  intro pre s suf
  have h1 : suf <:+ (unixEnv cwd).withSuffix s suf := by
    simp only [unixEnv]
    by_cases h : suf.isSuffixOf s = true
    · rw [if_pos h]
      exact List.isSuffixOf_iff_suffix.mp h
    · rw [if_neg h]
      exact List.suffix_append s suf
  have h2 : suf.isSuffixOf (pre ++ (unixEnv cwd).withSuffix s suf) = true :=
    List.isSuffixOf_iff_suffix.mpr (h1.trans (List.suffix_append pre _))
  show (if suf.isSuffixOf (pre ++ (unixEnv cwd).withSuffix s suf) = true then _ else _) = _
  rw [if_pos h2]

theorem unixEnv_absoluteBelow (cwd : QString) : (unixEnv cwd).AbsoluteBelow := by
  intro d name hd
  cases d with
  | nil => simp [unixEnv] at hd
  | cons c cs => simpa [unixEnv] using hd

/-- C9: for a non-empty target directory and a list of `n` events,
`startMultipleEventDownloads` appends `n` new tasks to the pending queue and to the full
registry, one per event and in the order of the events (the task of each event is created
for the request URL of that event, so no event is dropped or enqueued twice), emits the
`n` added notifications in that order and no other notification, and leaves the active
list alone. The target directory is the answer of the directory dialog, an absolute
path; with it the file name of each task is the directory joined with `/` and the
default file name of the event (a name behind an absolute directory being absolute, the
file-name class returning an absolute path as it is, and `withSuffix` leaving a name that
has the suffix). -/
theorem startMultipleEventDownloads_appends (env : Env) (m : EventDownloadManager)
    (dirName : QString) (events : List (EventData × DownloadPtr)) (hd : dirName ≠ []) :
    (startMultipleEventDownloads env m dirName events).1.m_eventVideoDownloadQueue =
      m.m_eventVideoDownloadQueue ++ events.map Prod.snd ∧
    (startMultipleEventDownloads env m dirName events).1.m_eventVideoDownloadList =
      m.m_eventVideoDownloadList ++ events.map Prod.snd ∧
    (startMultipleEventDownloads env m dirName events).1.m_activeEventVideoDownloadList =
      m.m_activeEventVideoDownloadList ∧
    (startMultipleEventDownloads env m dirName events).2.filter Effect.isNotification =
      events.map (fun e => Effect.eventVideoDownloadAdded e.2) ∧
    ((startMultipleEventDownloads env m dirName events).2.filterMap Effect.created).map
        (fun c => (c.1, c.2.1)) = events.map (fun e => (e.2, requestUrl e.1)) ∧
    (env.isAbsolute dirName = true → env.AbsoluteBelow → env.AbsoluteKept → env.SuffixKept →
      (startMultipleEventDownloads env m dirName events).2.filterMap Effect.created =
        events.map (fun e => (e.2, requestUrl e.1, dirName ++ '/' :: defaultFileName env e.1))) := by
  have hne : dirName.isEmpty = false := isEmpty_eq_false_of_ne hd
  have hrun : startMultipleEventDownloads env m dirName events =
      startEach env dirName m events := by
    simp [startMultipleEventDownloads, hne]
  rw [hrun]
  exact ⟨startEach_queue env dirName m events, startEach_list env dirName m events,
    startEach_active env dirName m events, startEach_notifications env dirName m events,
    startEach_created_tasks env dirName m events,
    fun habs hbelow hfi hws => startEach_created env hfi hws dirName m events
      (fun e _ => hbelow dirName (defaultFileName env e.1) habs)⟩

theorem startMultipleEventDownloads_appends_witness :
    "/videos".toList ≠ [] ∧ sampleEnv.isAbsolute "/videos".toList = true ∧
    sampleEnv.AbsoluteBelow ∧ sampleEnv.AbsoluteKept ∧ sampleEnv.SuffixKept ∧
    (startMultipleEventDownloads sampleEnv sampleRun "/videos".toList
      (sampleBatch 3)).1.m_eventVideoDownloadQueue = [3, 100, 101, 102] ∧
    (startMultipleEventDownloads sampleEnv sampleRun "/videos".toList
      (sampleBatch 3)).1.m_eventVideoDownloadList = [1, 2, 3, 100, 101, 102] ∧
    ((startMultipleEventDownloads sampleEnv sampleRun "/videos".toList
      (sampleBatch 3)).2.filterMap Effect.created).map (fun c => (c.1, c.2.2)) =
        [(100, "/videos/ea.mkv".toList), (101, "/videos/eb.mkv".toList),
          (102, "/videos/ec.mkv".toList)] :=
  have h := startMultipleEventDownloads_appends sampleEnv sampleRun "/videos".toList
    (sampleBatch 3) (by decide)
  ⟨by decide, by decide, unixEnv_absoluteBelow _, unixEnv_absoluteKept _, unixEnv_suffixKept _,
    h.1.trans (by decide), h.2.1.trans (by decide),
    (congrArg (List.map (fun c => (c.1, c.2.2)))
      (h.2.2.2.2.2 (by decide) (unixEnv_absoluteBelow _) (unixEnv_absoluteKept _)
        (unixEnv_suffixKept _))).trans
      (by decide)⟩

/-! ## The tracked directory -/

/-- C11: after `updateLastSaveDirectory p` the tracked directory is the containing
directory `D2` of `p`; when `D2` differs from the directory tracked before, the only
action is one write of `D2` under the key `download/lastSaveDirectory`, and when it is
the same nothing is written and the manager is unchanged. The three lists are never
touched. -/
theorem updateLastSaveDirectory_tracks (env : Env) (m : EventDownloadManager) (p : QString) :
    (updateLastSaveDirectory env m p).1.m_lastSaveDirectory = env.absoluteDirPath p ∧
    (m.m_lastSaveDirectory ≠ env.absoluteDirPath p →
      (updateLastSaveDirectory env m p).2 =
        [Effect.settingsSetValue "download/lastSaveDirectory".toList (env.absoluteDirPath p)]) ∧
    (m.m_lastSaveDirectory = env.absoluteDirPath p →
      (updateLastSaveDirectory env m p).2 = [] ∧ (updateLastSaveDirectory env m p).1 = m) ∧
    (updateLastSaveDirectory env m p).1.m_eventVideoDownloadQueue = m.m_eventVideoDownloadQueue ∧
    (updateLastSaveDirectory env m p).1.m_activeEventVideoDownloadList =
      m.m_activeEventVideoDownloadList ∧
    (updateLastSaveDirectory env m p).1.m_eventVideoDownloadList = m.m_eventVideoDownloadList := by
  refine ⟨?_, ?_, ?_, updateLastSaveDirectory_lists env m p⟩
  · by_cases h : m.m_lastSaveDirectory = env.absoluteDirPath p <;>
      simp [updateLastSaveDirectory, h]
  · intro h
    simp [updateLastSaveDirectory, h, lastSaveDirectoryKey]
  · intro h
    simp [updateLastSaveDirectory, h]

theorem updateLastSaveDirectory_tracks_witness :
    (EventDownloadManager.construct "/videos".toList).m_lastSaveDirectory ≠
      sampleEnv.absoluteDirPath "/data/x.mkv".toList ∧
    updateLastSaveDirectory sampleEnv (EventDownloadManager.construct "/videos".toList)
        "/data/x.mkv".toList =
      (EventDownloadManager.construct "/data".toList,
        [Effect.settingsSetValue "download/lastSaveDirectory".toList "/data".toList]) ∧
    (EventDownloadManager.construct "/videos".toList).m_lastSaveDirectory =
      sampleEnv.absoluteDirPath "/videos/y.mkv".toList ∧
    (updateLastSaveDirectory sampleEnv (EventDownloadManager.construct "/videos".toList)
        "/videos/y.mkv".toList).2 = [] :=
  ⟨by decide, by decide, by decide,
    ((updateLastSaveDirectory_tracks sampleEnv (EventDownloadManager.construct "/videos".toList)
      "/videos/y.mkv".toList).2.2.1 (by decide)).1⟩

/-! ## Actions of one call -/

theorem startedTasks_append (t1 t2 : List Effect) :
    startedTasks (t1 ++ t2) = startedTasks t1 ++ startedTasks t2 := by
  simp [startedTasks, List.filterMap_append]

theorem createdTasks_append (t1 t2 : List Effect) :
    createdTasks (t1 ++ t2) = createdTasks t1 ++ createdTasks t2 := by
  simp [createdTasks, List.filterMap_append]

theorem startedTasks_admitEffects (l : List DownloadPtr) :
    startedTasks (l.flatMap admitEffects) = l := by
  induction l with
  | nil => rfl
  | cons x xs ih =>
    simp only [startedTasks] at ih
    simp [startedTasks, admitEffects, Effect.started, ih]

theorem createdTasks_admitEffects (l : List DownloadPtr) :
    createdTasks (l.flatMap admitEffects) = [] := by
  induction l with
  | nil => rfl
  | cons x xs ih =>
    simp only [createdTasks] at ih
    simp [createdTasks, admitEffects, Effect.created] at ih ⊢
    exact ih

theorem stepWith_createdTasks (cap : Nat) (env : Env) (m : EventDownloadManager) (op : Op) :
    createdTasks (stepWith cap env m op).2 = op.creates := by
  cases op with
  | startEventDownload event fileName dl =>
    cases h : fileName.isEmpty with
    | true => simp [stepWith, Op.creates, startEventDownload, h, createdTasks]
    | false =>
      simp [stepWith, Op.creates, h, createdTasks, startEventDownload_created _ _ _ _ _ h]
  | startEventDownloadDialog event chosen dl =>
    cases h : chosen.isEmpty with
    | true =>
      simp [stepWith, Op.creates, startEventDownloadDialog, startEventDownload, h, createdTasks]
    | false =>
      simp [stepWith, Op.creates, startEventDownloadDialog, h, createdTasks,
        startEventDownload_created _ _ _ _ _ h]
  | startMultipleEventDownloads dirName events =>
    cases h : dirName.isEmpty with
    | true => simp [stepWith, Op.creates, startMultipleEventDownloads, h, createdTasks]
    | false =>
      have h1 := congrArg (List.map Prod.fst) (startEach_created_tasks env dirName m events)
      simp only [List.map_map] at h1
      simp only [stepWith, Op.creates, startMultipleEventDownloads, h, createdTasks]
      simpa [Function.comp_def] using h1
  | updateLastSaveDirectory fileName =>
    simp [stepWith, Op.creates, createdTasks, (updateLastSaveDirectory_effects env m fileName).1]
  | checkQueue =>
    simp only [stepWith, Op.creates, checkQueueWith_effects]
    exact createdTasks_admitEffects _
  | eventVideoDownloadFinished dl =>
    simp [stepWith, Op.creates, createdTasks, eventVideoDownloadFinished]
  | eventVideoDownloadDestroyed dl =>
    simp [stepWith, Op.creates, createdTasks, eventVideoDownloadDestroyed, Effect.created]

theorem stepWith_startedTasks (cap : Nat) (env : Env) (m : EventDownloadManager) (op : Op) :
    (startedTasks (stepWith cap env m op).2 = [] ∧ op ≠ Op.checkQueue) ∨
    (op = Op.checkQueue ∧
      startedTasks (stepWith cap env m op).2 = m.m_eventVideoDownloadQueue.take
        (admitted cap m.m_eventVideoDownloadQueue m.m_activeEventVideoDownloadList)) := by
  cases op with
  | startEventDownload event fileName dl =>
    left
    exact ⟨startEventDownload_started env m event fileName dl, by simp⟩
  | startEventDownloadDialog event chosen dl =>
    left
    exact ⟨startEventDownload_started env m event chosen dl, by simp⟩
  | startMultipleEventDownloads dirName events =>
    left
    refine ⟨?_, by simp⟩
    cases h : dirName.isEmpty with
    | true => simp [stepWith, startMultipleEventDownloads, h, startedTasks]
    | false =>
      simp only [stepWith, startMultipleEventDownloads, h]
      exact startEach_started env dirName m events
  | updateLastSaveDirectory fileName =>
    left
    exact ⟨(updateLastSaveDirectory_effects env m fileName).2.2, by simp⟩
  | checkQueue =>
    right
    refine ⟨rfl, ?_⟩
    simp only [stepWith, checkQueueWith_effects]
    exact startedTasks_admitEffects _
  | eventVideoDownloadFinished dl =>
    left
    exact ⟨rfl, by simp⟩
  | eventVideoDownloadDestroyed dl =>
    left
    exact ⟨rfl, by simp⟩

theorem queueKept_sublist (cap : Nat) (m : EventDownloadManager) (op : Op) :
    (queueKept cap m op).Sublist m.m_eventVideoDownloadQueue := by
  cases op with
  | checkQueue => exact List.drop_sublist _ _
  | eventVideoDownloadDestroyed dl => exact removeAll_sublist dl _
  | startEventDownload event fileName dl => exact List.Sublist.refl _
  | startEventDownloadDialog event chosen dl => exact List.Sublist.refl _
  | startMultipleEventDownloads dirName events => exact List.Sublist.refl _
  | updateLastSaveDirectory fileName => exact List.Sublist.refl _
  | eventVideoDownloadFinished dl => exact List.Sublist.refl _

theorem stepWith_queue (cap : Nat) (env : Env) (m : EventDownloadManager) (op : Op) :
    (stepWith cap env m op).1.m_eventVideoDownloadQueue = queueKept cap m op ++ op.creates := by
  cases op with
  | startEventDownload event fileName dl =>
    cases h : fileName.isEmpty with
    | true => simp [stepWith, Op.creates, queueKept, startEventDownload, h]
    | false => simp [stepWith, Op.creates, queueKept, h, startEventDownload_queue _ _ _ _ _ h]
  | startEventDownloadDialog event chosen dl =>
    cases h : chosen.isEmpty with
    | true =>
      simp [stepWith, Op.creates, queueKept, startEventDownloadDialog, startEventDownload, h]
    | false =>
      simp [stepWith, Op.creates, queueKept, startEventDownloadDialog, h,
        startEventDownload_queue _ _ _ _ _ h]
  | startMultipleEventDownloads dirName events =>
    cases h : dirName.isEmpty with
    | true => simp [stepWith, Op.creates, queueKept, startMultipleEventDownloads, h]
    | false =>
      simp [stepWith, Op.creates, queueKept, startMultipleEventDownloads, h, startEach_queue]
  | updateLastSaveDirectory fileName =>
    simp [stepWith, Op.creates, queueKept, (updateLastSaveDirectory_lists env m fileName).1]
  | checkQueue => simp [stepWith, Op.creates, queueKept, checkQueueWith_queue]
  | eventVideoDownloadFinished dl =>
    simp [stepWith, Op.creates, queueKept, eventVideoDownloadFinished]
  | eventVideoDownloadDestroyed dl =>
    simp [stepWith, Op.creates, queueKept, eventVideoDownloadDestroyed]

theorem stepWith_active_mem (cap : Nat) (env : Env) (m : EventDownloadManager) (op : Op)
    (t : DownloadPtr) (h : t ∈ (stepWith cap env m op).1.m_activeEventVideoDownloadList) :
    t ∈ m.m_activeEventVideoDownloadList ∨ t ∈ m.m_eventVideoDownloadQueue := by
  cases op with
  | startEventDownload event fileName dl =>
    left
    simpa [stepWith, startEventDownload_active] using h
  | startEventDownloadDialog event chosen dl =>
    left
    simpa [stepWith, startEventDownloadDialog, startEventDownload_active] using h
  | startMultipleEventDownloads dirName events =>
    left
    simpa [stepWith, startMultipleEventDownloads_active] using h
  | updateLastSaveDirectory fileName =>
    left
    simpa [stepWith, (updateLastSaveDirectory_lists env m fileName).2.1] using h
  | checkQueue =>
    simp only [stepWith, checkQueueWith_active] at h
    rcases List.mem_append.mp h with h | h
    · exact Or.inl h
    · exact Or.inr (List.mem_of_mem_take h)
  | eventVideoDownloadFinished dl =>
    left
    exact (mem_removeAll.mp h).1
  | eventVideoDownloadDestroyed dl =>
    left
    exact (mem_removeAll.mp h).1

theorem stepWith_started_mem (cap : Nat) (env : Env) (m : EventDownloadManager) (op : Op)
    (t : DownloadPtr) (h : t ∈ startedTasks (stepWith cap env m op).2) :
    t ∈ m.m_eventVideoDownloadQueue := by
  rcases stepWith_startedTasks cap env m op with ⟨h0, _⟩ | ⟨_, hk⟩
  · rw [h0] at h
    exact absurd h (List.not_mem_nil t)
  · rw [hk] at h
    exact List.mem_of_mem_take h

/-! ## Runs of calls -/

theorem runWith_append (cap : Nat) (env : Env) (m : EventDownloadManager) (ops1 ops2 : List Op) :
    runWith cap env m (ops1 ++ ops2) =
      ((runWith cap env (runWith cap env m ops1).1 ops2).1,
        (runWith cap env m ops1).2 ++ (runWith cap env (runWith cap env m ops1).1 ops2).2) := by
  induction ops1 generalizing m with
  | nil => simp [runWith]
  | cons op ops ih => simp [runWith, ih]

theorem runWith_createdTasks (cap : Nat) (env : Env) (m : EventDownloadManager) (ops : List Op) :
    createdTasks (runWith cap env m ops).2 = createdBy ops := by
  induction ops generalizing m with
  | nil => rfl
  | cons op ops ih =>
    simp [runWith, createdTasks_append, stepWith_createdTasks, ih, createdBy]

/-- A task that is neither pending nor active and is not created again stays out of the
queue and out of the active list, and is not started. -/
theorem runWith_not_mem (cap : Nat) (env : Env) (m : EventDownloadManager) (ops : List Op)
    (t : DownloadPtr) (hq : t ∉ m.m_eventVideoDownloadQueue)
    (ha : t ∉ m.m_activeEventVideoDownloadList) (hc : t ∉ createdBy ops) :
    t ∉ (runWith cap env m ops).1.m_eventVideoDownloadQueue ∧
    t ∉ (runWith cap env m ops).1.m_activeEventVideoDownloadList ∧
    t ∉ startedTasks (runWith cap env m ops).2 := by
  induction ops generalizing m with
  | nil => exact ⟨hq, ha, by simp [runWith, startedTasks]⟩
  | cons op ops ih =>
    have hc1 : t ∉ op.creates := fun h => hc (by simp [createdBy, h])
    have hc2 : t ∉ createdBy ops := fun h => hc (by
      simp only [createdBy, List.flatMap_cons, List.mem_append]
      exact Or.inr h)
    have hq1 : t ∉ (stepWith cap env m op).1.m_eventVideoDownloadQueue := by
      rw [stepWith_queue]
      intro h
      rcases List.mem_append.mp h with h | h
      · exact hq ((queueKept_sublist cap m op).subset h)
      · exact hc1 h
    have ha1 : t ∉ (stepWith cap env m op).1.m_activeEventVideoDownloadList := fun h =>
      (stepWith_active_mem cap env m op t h).elim ha hq
    have hs1 : t ∉ startedTasks (stepWith cap env m op).2 := fun h =>
      hq (stepWith_started_mem cap env m op t h)
    obtain ⟨r1, r2, r3⟩ := ih (stepWith cap env m op).1 hq1 ha1 hc2
    refine ⟨r1, r2, ?_⟩
    simp only [runWith, startedTasks_append, List.mem_append]
    rintro (h | h)
    · exact hs1 h
    · exact r3 h

/-! ## Destinations -/

theorem destinationOf_append_of_not_created (t1 t2 : List Effect) (dl : DownloadPtr)
    (h : dl ∉ createdTasks t2) : destinationOf (t1 ++ t2) dl = destinationOf t1 dl := by
  have hnone : (List.filterMap Effect.created t2).reverse.find? (fun c => c.1 == dl) = none := by
    rw [List.find?_eq_none]
    intro c hc hcd
    apply h
    simp only [createdTasks, List.mem_map]
    exact ⟨c, List.mem_reverse.mp hc, by simpa using hcd⟩
  simp [destinationOf, List.filterMap_append, hnone]

theorem destinationOf_append_created (t1 t2 : List Effect) (dl : DownloadPtr) (url : QUrl)
    (f : QString) (h : t2.filterMap Effect.created = [(dl, url, f)]) :
    destinationOf (t1 ++ t2) dl = some f := by
  simp [destinationOf, List.filterMap_append, h]

theorem destinationOf_run (env : Env) (m : EventDownloadManager) (trace : List Effect)
    (ops : List Op) (dl : DownloadPtr) (h : dl ∉ createdBy ops) :
    destinationOf (trace ++ (run env m ops).2) dl = destinationOf trace dl := by
  apply destinationOf_append_of_not_created
  rw [run, runWith_createdTasks]
  exact h

theorem startEventDownload_dir (env : Env) (m : EventDownloadManager) (event : EventData)
    (fileName : QString) (dl : DownloadPtr) (h : fileName.isEmpty = false) :
    (startEventDownload env m event fileName dl).1.m_lastSaveDirectory =
      env.absoluteDirPath (absoluteFileName env m (env.withSuffix fileName mkvSuffix)) := by
  by_cases hd : m.m_lastSaveDirectory =
      env.absoluteDirPath (absoluteFileName env m (env.withSuffix fileName mkvSuffix)) <;>
    simp [startEventDownload, h, updateLastSaveDirectory, hd]

/-- C12: the destination of a task is fixed at request time. The task created by
`startEventDownload (event, fileName)` for a non-empty file name gets as destination the
file name (with the suffix `.mkv`) resolved by `absoluteFileName` in the manager as it
was before the call, and the tracked directory is set from that destination afterwards.
Whatever calls follow (requests, `updateLastSaveDirectory`, `checkQueue`, ends and
destructions), as long as they create no task at the same address, the destination of
the task stays the same; and a task created earlier at another address keeps its
destination through the call and through what follows. -/
theorem destination_fixed_at_request (env : Env) (m : EventDownloadManager) (event : EventData)
    (fileName : QString) (dl : DownloadPtr) (before : List Effect) (later : List Op)
    (h : fileName ≠ []) (hl : dl ∉ createdBy later) :
    destinationOf (before ++ (startEventDownload env m event fileName dl).2) dl =
      some (absoluteFileName env m (env.withSuffix fileName ".mkv".toList)) ∧
    (startEventDownload env m event fileName dl).1.m_lastSaveDirectory =
      env.absoluteDirPath (absoluteFileName env m (env.withSuffix fileName ".mkv".toList)) ∧
    destinationOf (before ++ (startEventDownload env m event fileName dl).2 ++
        (run env (startEventDownload env m event fileName dl).1 later).2) dl =
      some (absoluteFileName env m (env.withSuffix fileName ".mkv".toList)) ∧
    (∀ u, u ≠ dl → u ∉ createdBy later →
      destinationOf (before ++ (startEventDownload env m event fileName dl).2 ++
        (run env (startEventDownload env m event fileName dl).1 later).2) u =
      destinationOf before u) := by
  have hne := isEmpty_eq_false_of_ne h
  have hc := startEventDownload_created env m event fileName dl hne
  have h1 := destinationOf_append_created before _ dl _ _ hc
  refine ⟨h1, startEventDownload_dir env m event fileName dl hne, ?_, ?_⟩
  · rw [destinationOf_run env _ _ later dl hl]
    exact h1
  · intro u hu hul
    rw [destinationOf_run env _ _ later u hul]
    apply destinationOf_append_of_not_created
    simp [createdTasks, hc, hu]

theorem destination_fixed_at_request_witness :
    "a".toList ≠ [] ∧ 1 ∉ createdBy sampleLater ∧
    destinationOf
      ((startEventDownload sampleEnv (EventDownloadManager.construct "/videos".toList)
          (sampleEvent 0) "a".toList 1).2 ++
        (run sampleEnv
          (startEventDownload sampleEnv (EventDownloadManager.construct "/videos".toList)
            (sampleEvent 0) "a".toList 1).1 sampleLater).2) 1 = some "/videos/a.mkv".toList ∧
    (run sampleEnv
      (startEventDownload sampleEnv (EventDownloadManager.construct "/videos".toList)
        (sampleEvent 0) "a".toList 1).1 sampleLater).1.m_lastSaveDirectory = "/else".toList :=
  ⟨by decide, by decide,
    ((destination_fixed_at_request sampleEnv (EventDownloadManager.construct "/videos".toList)
      (sampleEvent 0) "a".toList 1 [] sampleLater (by decide) (by decide)).2.2.1).trans
      (congrArg some (by decide)),
    by decide⟩

/-! ## The scenario with two slots -/

/-- C13: with the concurrency cap set to 2, from the freshly constructed manager, five
requests for distinct tasks `t1 .. t5` and one `checkQueue` give the active list
`[t1, t2]` and the pending queue `[t3, t4, t5]`; when `t1` then finishes the active list
is `[t2]`, and after the next `checkQueue` the active list is `[t2, t3]` and the pending
queue is `[t4, t5]`. -/
theorem scenario_two_slots (env : Env) (stored : QString) (e1 e2 e3 e4 e5 : EventData)
    (f1 f2 f3 f4 f5 : QString) (t1 t2 t3 t4 t5 : DownloadPtr)
    (hf : f1 ≠ [] ∧ f2 ≠ [] ∧ f3 ≠ [] ∧ f4 ≠ [] ∧ f5 ≠ [])
    (hd : [t1, t2, t3, t4, t5].Nodup) :
    (runWith 2 env (EventDownloadManager.construct stored)
      [Op.startEventDownload e1 f1 t1, Op.startEventDownload e2 f2 t2,
        Op.startEventDownload e3 f3 t3, Op.startEventDownload e4 f4 t4,
        Op.startEventDownload e5 f5 t5, Op.checkQueue]).1.m_activeEventVideoDownloadList
      = [t1, t2] ∧
    (runWith 2 env (EventDownloadManager.construct stored)
      [Op.startEventDownload e1 f1 t1, Op.startEventDownload e2 f2 t2,
        Op.startEventDownload e3 f3 t3, Op.startEventDownload e4 f4 t4,
        Op.startEventDownload e5 f5 t5, Op.checkQueue]).1.m_eventVideoDownloadQueue
      = [t3, t4, t5] ∧
    (runWith 2 env (EventDownloadManager.construct stored)
      [Op.startEventDownload e1 f1 t1, Op.startEventDownload e2 f2 t2,
        Op.startEventDownload e3 f3 t3, Op.startEventDownload e4 f4 t4,
        Op.startEventDownload e5 f5 t5, Op.checkQueue,
        Op.eventVideoDownloadFinished t1]).1.m_activeEventVideoDownloadList
      = [t2] ∧
    (runWith 2 env (EventDownloadManager.construct stored)
      [Op.startEventDownload e1 f1 t1, Op.startEventDownload e2 f2 t2,
        Op.startEventDownload e3 f3 t3, Op.startEventDownload e4 f4 t4,
        Op.startEventDownload e5 f5 t5, Op.checkQueue,
        Op.eventVideoDownloadFinished t1, Op.checkQueue]).1.m_activeEventVideoDownloadList
      = [t2, t3] ∧
    (runWith 2 env (EventDownloadManager.construct stored)
      [Op.startEventDownload e1 f1 t1, Op.startEventDownload e2 f2 t2,
        Op.startEventDownload e3 f3 t3, Op.startEventDownload e4 f4 t4,
        Op.startEventDownload e5 f5 t5, Op.checkQueue,
        Op.eventVideoDownloadFinished t1, Op.checkQueue]).1.m_eventVideoDownloadQueue
      = [t4, t5] := by
  obtain ⟨h1, h2, h3, h4, h5⟩ := hf
  have n1 := isEmpty_eq_false_of_ne h1
  have n2 := isEmpty_eq_false_of_ne h2
  have n3 := isEmpty_eq_false_of_ne h3
  have n4 := isEmpty_eq_false_of_ne h4
  have n5 := isEmpty_eq_false_of_ne h5
  have h21 : t2 ≠ t1 := by
    intro e
    simp [e] at hd
  simp [runWith, stepWith, startEventDownload_queue, startEventDownload_active, n1, n2, n3, n4,
    n5, checkQueueWith_queue, checkQueueWith_active, admitted, eventVideoDownloadFinished,
    removeAll, EventDownloadManager.construct, h21]

theorem scenario_two_slots_witness :
    (("a".toList ≠ [] ∧ "b".toList ≠ [] ∧ "c".toList ≠ [] ∧ "d".toList ≠ [] ∧
      "e".toList ≠ ([] : QString)) ∧ [1, 2, 3, 4, 5].Nodup) ∧
    (runWith 2 sampleEnv (EventDownloadManager.construct [])
      [Op.startEventDownload (sampleEvent 1) "a".toList 1,
        Op.startEventDownload (sampleEvent 2) "b".toList 2,
        Op.startEventDownload (sampleEvent 3) "c".toList 3,
        Op.startEventDownload (sampleEvent 4) "d".toList 4,
        Op.startEventDownload (sampleEvent 5) "e".toList 5, Op.checkQueue,
        Op.eventVideoDownloadFinished 1, Op.checkQueue]).1.m_activeEventVideoDownloadList
      = [2, 3] ∧
    (runWith 2 sampleEnv (EventDownloadManager.construct [])
      [Op.startEventDownload (sampleEvent 1) "a".toList 1,
        Op.startEventDownload (sampleEvent 2) "b".toList 2,
        Op.startEventDownload (sampleEvent 3) "c".toList 3,
        Op.startEventDownload (sampleEvent 4) "d".toList 4,
        Op.startEventDownload (sampleEvent 5) "e".toList 5, Op.checkQueue,
        Op.eventVideoDownloadFinished 1, Op.checkQueue]).1.m_eventVideoDownloadQueue
      = [4, 5] :=
  ⟨⟨by decide, by decide⟩,
    (scenario_two_slots sampleEnv [] (sampleEvent 1) (sampleEvent 2) (sampleEvent 3)
      (sampleEvent 4) (sampleEvent 5) "a".toList "b".toList "c".toList "d".toList "e".toList
      1 2 3 4 5 (by decide) (by decide)).2.2.2⟩

/-! ## One slot per finished task -/

theorem length_removeAll_of_mem {t : DownloadPtr} {l : List DownloadPtr} (hn : l.Nodup)
    (ht : t ∈ l) : (removeAll t l).length + 1 = l.length := by
  induction l with
  | nil => exact absurd ht (List.not_mem_nil t)
  | cons x xs ih =>
    have hx : x ∉ xs := (List.nodup_cons.mp hn).1
    have hxs : xs.Nodup := (List.nodup_cons.mp hn).2
    by_cases h : x = t
    · subst h
      simp [removeAll, removeAll_of_not_mem hx]
    · have hmem : t ∈ xs := by
        rcases List.mem_cons.mp ht with e | e
        · exact absurd e.symm h
        · exact e
      simp [removeAll, h, ih hxs hmem]

/-- C15: in every reachable state, when new tasks get addresses that no container holds,
none of the pending queue, the active list and the full registry holds a task twice; so
`eventVideoDownloadFinished t` for an active `t` makes the active list exactly one
shorter, and for a `t` that is not active it changes nothing. -/
theorem finished_frees_one_slot (env : Env) (m : EventDownloadManager)
    (h : ReachableFresh env m) :
    m.m_eventVideoDownloadQueue.Nodup ∧ m.m_activeEventVideoDownloadList.Nodup ∧
    m.m_eventVideoDownloadList.Nodup ∧
    (∀ t, t ∈ m.m_activeEventVideoDownloadList →
      (eventVideoDownloadFinished m t).1.m_activeEventVideoDownloadList.length + 1 =
        m.m_activeEventVideoDownloadList.length) ∧
    (∀ t, t ∉ m.m_activeEventVideoDownloadList → eventVideoDownloadFinished m t = (m, [])) := by
  obtain ⟨hq, ha, hl, _, _, _⟩ := consistent_of_reachableFresh env m h
  refine ⟨hq, ha, hl, fun t ht => length_removeAll_of_mem ha ht, fun t ht => ?_⟩
  simp [eventVideoDownloadFinished, removeAll_of_not_mem ht]

theorem finished_frees_one_slot_witness :
    ReachableFresh sampleEnv sampleRun ∧
    sampleRun.m_activeEventVideoDownloadList = [2] ∧
    (eventVideoDownloadFinished sampleRun 2).1.m_activeEventVideoDownloadList.length + 1 =
      sampleRun.m_activeEventVideoDownloadList.length ∧
    eventVideoDownloadFinished sampleRun 9 = (sampleRun, []) :=
  ⟨sampleRun_reachableFresh, by decide,
    (finished_frees_one_slot sampleEnv sampleRun sampleRun_reachableFresh).2.2.2.1 2
      (by decide),
    (finished_frees_one_slot sampleEnv sampleRun sampleRun_reachableFresh).2.2.2.2 9
      (by decide)⟩

/-! ## A destroyed pending task -/

theorem mem_startedTasks {trace : List Effect} {t : DownloadPtr} :
    t ∈ startedTasks trace ↔ Effect.start t ∈ trace := by
  simp only [startedTasks, List.mem_filterMap]
  constructor
  · rintro ⟨e, he, hs⟩
    cases e <;> simp [Effect.started] at hs
    subst hs
    exact he
  · intro h
    exact ⟨Effect.start t, h, rfl⟩

/-- C14: after `eventVideoDownloadDestroyed t` the task `t` is neither in the pending
queue nor in the full registry (nor in the active list), and whatever calls follow
(`checkQueue` any number of times, mixed with any calls that create no task at the
address of `t`) the task is never started and is never in the active list or in the
queue again. This holds in every state, so in particular in a reachable state in which
`t` is pending and was never admitted. -/
theorem destroyed_pending_never_started (env : Env) (m : EventDownloadManager)
    (t : DownloadPtr) (ops : List Op) (hc : t ∉ createdBy ops) :
    t ∉ (eventVideoDownloadDestroyed m t).1.m_eventVideoDownloadQueue ∧
    t ∉ (eventVideoDownloadDestroyed m t).1.m_eventVideoDownloadList ∧
    t ∉ (eventVideoDownloadDestroyed m t).1.m_activeEventVideoDownloadList ∧
    Effect.start t ∉ (run env (eventVideoDownloadDestroyed m t).1 ops).2 ∧
    t ∉ (run env (eventVideoDownloadDestroyed m t).1 ops).1.m_activeEventVideoDownloadList ∧
    t ∉ (run env (eventVideoDownloadDestroyed m t).1 ops).1.m_eventVideoDownloadQueue := by
  have hq : t ∉ (eventVideoDownloadDestroyed m t).1.m_eventVideoDownloadQueue :=
    not_mem_removeAll t _
  have ha : t ∉ (eventVideoDownloadDestroyed m t).1.m_activeEventVideoDownloadList :=
    not_mem_removeAll t _
  obtain ⟨r1, r2, r3⟩ := runWith_not_mem MAX_CONCURRENT_DOWNLOADS env _ ops t hq ha hc
  exact ⟨hq, not_mem_removeAll t _, ha, fun h => r3 (mem_startedTasks.mpr h), r2, r1⟩

theorem destroyed_pending_never_started_witness :
    3 ∉ createdBy sampleAfter ∧ 3 ∈ sampleRun.m_eventVideoDownloadQueue ∧
    Effect.start 3 ∉ (run sampleEnv (eventVideoDownloadDestroyed sampleRun 3).1 sampleAfter).2 ∧
    (run sampleEnv (eventVideoDownloadDestroyed sampleRun 3).1
      sampleAfter).1.m_activeEventVideoDownloadList = [4] :=
  ⟨by decide, by decide,
    (destroyed_pending_never_started sampleEnv sampleRun 3 sampleAfter (by decide)).2.2.2.1,
    by decide⟩

/-! ## Every task is started at most once -/

theorem count_start_eq (trace : List Effect) (t : DownloadPtr) :
    trace.count (Effect.start t) = (startedTasks trace).count t := by
  induction trace with
  | nil => rfl
  | cons e es ih =>
    simp only [startedTasks] at ih
    cases e <;> simp [startedTasks, Effect.started, List.count_cons, ih]

theorem startedOnce_step (cap : Nat) (env : Env) (m : EventDownloadManager)
    (trace : List Effect) (op : Op) (hinv : StartedOnce m.m_eventVideoDownloadQueue trace)
    (hn : op.creates.Nodup) (hfresh : ∀ t ∈ op.creates, t ∉ createdTasks trace) :
    StartedOnce (stepWith cap env m op).1.m_eventVideoDownloadQueue
      (trace ++ (stepWith cap env m op).2) := by
  obtain ⟨hs, hq, hqs, hqc, hsc⟩ := hinv
  have hsub := queueKept_sublist cap m op
  unfold StartedOnce
  rw [stepWith_queue, startedTasks_append, createdTasks_append, stepWith_createdTasks]
  rcases stepWith_startedTasks cap env m op with ⟨h0, _⟩ | ⟨hop, hk⟩
  · rw [h0, List.append_nil]
    refine ⟨hs, ?_, ?_, ?_, ?_⟩
    · exact List.Nodup.append (hq.sublist hsub) hn
        (fun t h1 h2 => hfresh t h2 (hqc t (hsub.subset h1)))
    · intro t ht
      rcases List.mem_append.mp ht with h | h
      · exact hqs t (hsub.subset h)
      · exact fun hst => hfresh t h (hsc t hst)
    · intro t ht
      rcases List.mem_append.mp ht with h | h
      · exact List.mem_append_left _ (hqc t (hsub.subset h))
      · exact List.mem_append_right _ h
    · intro t ht
      exact List.mem_append_left _ (hsc t ht)
  · subst hop
    rw [hk]
    simp only [queueKept, Op.creates, List.append_nil]
    generalize admitted cap m.m_eventVideoDownloadQueue m.m_activeEventVideoDownloadList = k
    have hsplit :
        (m.m_eventVideoDownloadQueue.take k ++ m.m_eventVideoDownloadQueue.drop k).Nodup := by
      rwa [List.take_append_drop]
    have hparts := List.nodup_append.mp hsplit
    refine ⟨?_, hparts.2.1, ?_, ?_, ?_⟩
    · exact List.Nodup.append hs hparts.1
        (fun t h1 h2 => hqs t (List.mem_of_mem_take h2) h1)
    · intro t ht hst
      rcases List.mem_append.mp hst with h | h
      · exact hqs t (List.mem_of_mem_drop ht) h
      · exact hparts.2.2 h ht
    · intro t ht
      exact hqc t (List.mem_of_mem_drop ht)
    · intro t ht
      rcases List.mem_append.mp ht with h | h
      · exact hsc t h
      · exact hqc t (List.mem_of_mem_take h)

theorem startedOnce_run (cap : Nat) (env : Env) (m : EventDownloadManager)
    (trace : List Effect) (ops : List Op)
    (hinv : StartedOnce m.m_eventVideoDownloadQueue trace)
    (hn : (createdTasks trace ++ createdBy ops).Nodup) :
    StartedOnce (runWith cap env m ops).1.m_eventVideoDownloadQueue
      (trace ++ (runWith cap env m ops).2) := by
  induction ops generalizing m trace with
  | nil => simpa [runWith] using hinv
  | cons op ops ih =>
    have hsplit : (createdTasks trace ++ (op.creates ++ createdBy ops)).Nodup := by
      simpa [createdBy] using hn
    have h1 := List.nodup_append.mp hsplit
    have h2 := List.nodup_append.mp h1.2.1
    have hstep := startedOnce_step cap env m trace op hinv h2.1
      (fun t ht hc => h1.2.2 hc (List.mem_append_left _ ht))
    have hn2 : (createdTasks (trace ++ (stepWith cap env m op).2) ++ createdBy ops).Nodup := by
      rw [createdTasks_append, stepWith_createdTasks, List.append_assoc]
      exact hsplit
    have := ih (stepWith cap env m op).1 (trace ++ (stepWith cap env m op).2) hstep hn2
    simpa [runWith, List.append_assoc] using this

theorem runWith_queue_mem (cap : Nat) (env : Env) (m : EventDownloadManager) (ops : List Op)
    (t : DownloadPtr) (h : t ∈ (runWith cap env m ops).1.m_eventVideoDownloadQueue) :
    t ∈ m.m_eventVideoDownloadQueue ∨ t ∈ createdBy ops := by
  induction ops generalizing m with
  | nil => exact Or.inl h
  | cons op ops ih =>
    rcases ih (stepWith cap env m op).1 h with h1 | h1
    · rw [stepWith_queue] at h1
      rcases List.mem_append.mp h1 with h2 | h2
      · exact Or.inl ((queueKept_sublist cap m op).subset h2)
      · exact Or.inr (by simp [createdBy, h2])
    · exact Or.inr (by
        simp only [createdBy, List.flatMap_cons, List.mem_append]
        exact Or.inr h1)

theorem createdBy_append (ops1 ops2 : List Op) :
    createdBy (ops1 ++ ops2) = createdBy ops1 ++ createdBy ops2 := by
  simp [createdBy]

theorem startedOnce_construct (stored : QString) :
    StartedOnce (EventDownloadManager.construct stored).m_eventVideoDownloadQueue [] := by
  simp [StartedOnce, EventDownloadManager.construct, startedTasks]

/-- C16: along every run from the freshly constructed manager in which each created task
gets an address of its own (no address is used for two tasks of the run), every task is
started at most once. Only `checkQueue` starts tasks: it connects `finished` and calls
`start` for exactly the tasks it takes from the head of the pending queue, and any other
call starts nothing. A created task that is no longer in the pending queue (admitted or
destroyed) is not in it after any further calls, so it is never admitted a second time,
also after it has finished. -/
theorem started_at_most_once (env : Env) (stored : QString) (ops : List Op)
    (h : (createdBy ops).Nodup) :
    (∀ t, (run env (EventDownloadManager.construct stored) ops).2.count (Effect.start t) ≤ 1) ∧
    (∀ m : EventDownloadManager,
      (checkQueue m).2 =
        (m.m_eventVideoDownloadQueue.take
          (admitted MAX_CONCURRENT_DOWNLOADS m.m_eventVideoDownloadQueue
            m.m_activeEventVideoDownloadList)).flatMap
          (fun dl => [Effect.connectFinished dl, Effect.start dl]) ∧
      (checkQueue m).1.m_eventVideoDownloadQueue =
        m.m_eventVideoDownloadQueue.drop
          (admitted MAX_CONCURRENT_DOWNLOADS m.m_eventVideoDownloadQueue
            m.m_activeEventVideoDownloadList)) ∧
    (∀ (m : EventDownloadManager) (op : Op), op ≠ Op.checkQueue →
      startedTasks (stepWith MAX_CONCURRENT_DOWNLOADS env m op).2 = []) ∧
    (∀ ops1 ops2 t, ops = ops1 ++ ops2 → t ∈ createdBy ops1 →
      t ∉ (run env (EventDownloadManager.construct stored) ops1).1.m_eventVideoDownloadQueue →
      t ∉ (run env (EventDownloadManager.construct stored) ops).1.m_eventVideoDownloadQueue) := by
  refine ⟨?_, ?_, ?_, ?_⟩
  · intro t
    have hinv := startedOnce_run MAX_CONCURRENT_DOWNLOADS env
      (EventDownloadManager.construct stored) [] ops (startedOnce_construct stored)
      (by simpa [createdTasks] using h)
    rw [count_start_eq]
    exact List.nodup_iff_count_le_one.mp (by simpa [run] using hinv.1) t
  · intro m
    exact ⟨checkQueueWith_effects _ m, checkQueueWith_queue _ m⟩
  · intro m op hop
    rcases stepWith_startedTasks MAX_CONCURRENT_DOWNLOADS env m op with ⟨h0, _⟩ | ⟨h1, _⟩
    · exact h0
    · exact absurd h1 hop
  · intro ops1 ops2 t hsplit ht hout hin
    subst hsplit
    rw [createdBy_append] at h
    rw [run, runWith_append] at hin
    rcases runWith_queue_mem _ env _ ops2 t hin with h1 | h1
    · exact hout h1
    · exact (List.nodup_append.mp h).2.2 ht h1

theorem started_at_most_once_witness :
    (createdBy sampleOps).Nodup ∧
    (run sampleEnv (EventDownloadManager.construct []) sampleOps).2.count (Effect.start 1) = 1 ∧
    (∀ t, (run sampleEnv (EventDownloadManager.construct []) sampleOps).2.count
      (Effect.start t) ≤ 1) :=
  ⟨by decide, by decide,
    (started_at_most_once sampleEnv [] sampleOps (by decide)).1⟩

/-! ## The table read of `slower` -/

/-- C17 fails on the code: at the current speed `1/128`, the lowest speed of the
supported range (the one `slower` itself clamps to), `slower` compares
`1/128 * 0.9 ≤ playbackRates[0]` at `i = 0`, which holds, and reads
`playbackRates[i-1]` with `i = 0`, that is at index `-1`, before the table; the new speed
has no defined value. -/
theorem slower_reads_before_table :
    (1 / 128 : ℚ) ≤ 1 / 128 ∧ (1 / 128 : ℚ) ≤ 128 ∧
    playbackRates.length = playbackRateCount ∧
    slowerReadIndex (1 / 128) = some (-1) ∧ slower (1 / 128) = none := by
  refine ⟨le_refl _, by norm_num, rfl, ?_, ?_⟩
  · norm_num [slowerReadIndex, slowerScan, playbackRates]
  · norm_num [slower, slowerReadIndex, slowerScan, playbackRates]

theorem slowerScan_bounds (speed : ℚ) (rates : List ℚ) (i j : Int)
    (h : slowerScan speed rates i = some j) : i - 1 ≤ j ∧ j ≤ i - 2 + rates.length := by
  induction rates generalizing i with
  | nil => simp [slowerScan] at h
  | cons r rest ih =>
    by_cases hr : speed ≤ r
    · simp only [slowerScan, hr, if_true, Option.some.injEq] at h
      simp only [List.length_cons, Nat.cast_add, Nat.cast_one]
      omega
    · simp only [slowerScan, hr, if_false] at h
      have := ih (i + 1) h
      simp only [List.length_cons, Nat.cast_add, Nat.cast_one]
      omega

theorem slowerScan_isSome (speed : ℚ) (rates : List ℚ) (i : Int)
    (h : ∃ r ∈ rates, speed ≤ r) : ∃ j, slowerScan speed rates i = some j := by
  induction rates generalizing i with
  | nil =>
    obtain ⟨r, hr, _⟩ := h
    exact absurd hr (List.not_mem_nil r)
  | cons r rest ih =>
    by_cases hr : speed ≤ r
    · exact ⟨i - 1, by simp [slowerScan, hr]⟩
    · obtain ⟨r2, hmem, hle⟩ := h
      have hrest : ∃ r ∈ rest, speed ≤ r := by
        rcases List.mem_cons.mp hmem with e | e
        · exact absurd (e ▸ hle) hr
        · exact ⟨r2, e, hle⟩
      obtain ⟨j, hj⟩ := ih (i + 1) hrest
      exact ⟨j, by simp [slowerScan, hr, hj]⟩

theorem slowerScan_first (speed r : ℚ) (rest : List ℚ) (i : Int) :
    slowerScan speed (r :: rest) i = some (i - 1) ↔ speed ≤ r := by
  constructor
  · intro h
    by_contra hr
    simp only [slowerScan, hr, if_false] at h
    have := slowerScan_bounds speed rest (i + 1) (i - 1) h
    omega
  · intro hr
    simp [slowerScan, hr]

/-- For every current speed of the supported range the loop of `slower` stops with a
read `playbackRates[i-1]` at an index from `-1` to `17`, and the index is `-1` exactly
for the speeds up to `5/576`, those whose nine tenths are at most `1/128`. -/
theorem slowerReadIndex_range (c : ℚ) (h2 : c ≤ 128) :
    ∃ i, slowerReadIndex c = some i ∧ -1 ≤ i ∧ i ≤ 17 ∧ (i = -1 ↔ c ≤ 5 / 576) := by
  have hlast : ∃ r ∈ playbackRates, c * (9 / 10) ≤ r :=
    ⟨128, by simp [playbackRates], by linarith⟩
  obtain ⟨j, hj⟩ := slowerScan_isSome (c * (9 / 10)) playbackRates 0 hlast
  have hb := slowerScan_bounds _ _ _ _ hj
  have hlen : playbackRates.length = 19 := rfl
  rw [hlen] at hb
  refine ⟨j, hj, by omega, by omega, ?_⟩
  have hfirst := slowerScan_first (c * (9 / 10)) (1 / 128)
    [1 / 64, 1 / 32, 1 / 16, 1 / 8, 1 / 4, 1 / 3, 1 / 2, 2 / 3, 1 / 1,
      3 / 2, 2 / 1, 3 / 1, 4 / 1, 8 / 1, 16 / 1, 32 / 1, 64 / 1, 128 / 1] 0
  have hj2 : slowerScan (c * (9 / 10)) playbackRates 0 = some j := hj
  unfold playbackRates at hj2
  rw [hj2] at hfirst
  constructor
  · intro e
    have := hfirst.mp (by rw [e]; rfl)
    linarith
  · intro hc
    have := hfirst.mpr (by linarith)
    simpa using this

end Bluecherry
